import Mathlib

/-!
Verification of the data-access layer of the SP stock-service repository
(`src/SP/backend/services/stock_service.py` and
`src/SP/backend/services/cache_cleanup.py`).

Times are modelled as rationals (`ℚ`).  Environment effects (the wall
clock, Python's `random` module, Python's per-process string `hash`,
NumPy's global generator, date formatting) are modelled as explicit
parameters, so every definition is an executable function of its inputs.
-/

namespace SP

/-! ## RateLimiter (stock_service.py lines 24–47) -/

/-- State of `RateLimiter`: the deque of recorded call timestamps together
with the `max_calls` / `period` configuration (lines 26–30). -/
structure RateLimiter where
  timestamps : List ℚ
  max_calls : ℕ
  period : ℚ

/-- One observed execution of `wait_if_needed`: `now` is the value of
`time.time()` read at entry (line 34), `jitter` the value of
`random.uniform(0.1, 1.0)` (line 42), and `wake` the value of
`time.time()` re-read after the sleep (line 44). -/
structure CallEvent where
  now : ℚ
  jitter : ℚ
  wake : ℚ

/-- The pruning loop of lines 37–38: pop timestamps from the front while
the front is older than `period`. -/
def pruneExpired (now period : ℚ) : List ℚ → List ℚ
  | [] => []
  | t :: ts => if now - t > period then pruneExpired now period ts else t :: ts

/-- The sleep duration computed on line 42:
`timestamps[0] + period - now + jitter` (`headI` is the front of the
deque; the branch is only reached when the deque is non-empty). -/
def sleepTime (pruned : List ℚ) (period now jitter : ℚ) : ℚ :=
  pruned.headI + period - now + jitter

/-- `RateLimiter.wait_if_needed` (lines 32–47): prune expired timestamps;
if still at the limit, sleep and re-read the clock (the model receives the
re-read value as `e.wake`); append the current clock value.  Returns the
new state and the clock value at the instant of the append/return. -/
def wait_if_needed (rl : RateLimiter) (e : CallEvent) : RateLimiter × ℚ :=
  let ts := pruneExpired e.now rl.period rl.timestamps
  if rl.max_calls ≤ ts.length then
    ({ rl with timestamps := ts ++ [e.wake] }, e.wake)
  else
    ({ rl with timestamps := ts ++ [e.now] }, e.now)

/-- Physical side conditions tying a `CallEvent` to the real semantics of
lines 32–47 for sequential calls: the entry clock is at least the previous
return's clock (`time.time()` is monotone), the jitter is drawn from
`uniform(0.1, 1.0)`, and the re-read clock is at least the entry clock
plus the slept duration `max 0 sleepTime` (line 43). -/
def ValidEvent (rl : RateLimiter) (lastRet : ℚ) (e : CallEvent) : Prop :=
  lastRet ≤ e.now ∧ 1/10 ≤ e.jitter ∧ e.jitter ≤ 1 ∧
    e.now + max 0 (sleepTime (pruneExpired e.now rl.period rl.timestamps)
      rl.period e.now e.jitter) ≤ e.wake

/-- Run a sequence of `wait_if_needed` calls, threading the state and the
return-instant clock value. -/
def runCalls : RateLimiter → ℚ → List CallEvent → RateLimiter × ℚ
  | rl, r, [] => (rl, r)
  | rl, _, e :: es => runCalls (wait_if_needed rl e).1 (wait_if_needed rl e).2 es

/-- Every event of the trace satisfies `ValidEvent` relative to the state
reached so far. -/
def ValidTrace : RateLimiter → ℚ → List CallEvent → Prop
  | _, _, [] => True
  | rl, r, e :: es =>
      ValidEvent rl r e ∧ ValidTrace (wait_if_needed rl e).1 (wait_if_needed rl e).2 es

/-- Number of recorded timestamps lying within the trailing window of
length `period` ending at instant `t` (the code's notion of non-expired,
line 37: `t - x ≤ period`). -/
def countWithin (t period : ℚ) (l : List ℚ) : ℕ :=
  (l.filter (fun x => decide (t - x ≤ period))).length

/-- Induction invariant of the limiter: the deque is sorted, all
recorded timestamps are no later than the last return instant, and the
trailing-window count is bounded by `max_calls`. -/
def RLInv (rl : RateLimiter) (r : ℚ) : Prop :=
  rl.timestamps.Sorted (· ≤ ·) ∧ (∀ x ∈ rl.timestamps, x ≤ r) ∧
    countWithin r rl.period rl.timestamps ≤ rl.max_calls

/-! ## Lock discipline of `wait_if_needed` (stock_service.py lines 32–47)

The body of `wait_if_needed` is a straight-line sequence of actions; the
`with self.lock:` block (line 35) encloses the prune loop, the
conditional sleep, and the append.  We record that control structure as
an event trace in order to settle claims about where the lock is held. -/

/-- Atomic actions of `wait_if_needed`, in source order. -/
inductive LockEvent where
  | acquire
  | prune
  | sleep
  | append
  | release
deriving DecidableEq

/-- Action trace of one `wait_if_needed` call (lines 32–47): `time.time()`
is read, the lock is acquired (line 35), timestamps are pruned
(lines 37–38), the sleep happens when the limiter is at capacity
(lines 41–44), the new timestamp is appended (line 47), and only then is
the lock released (end of the `with` block). -/
def waitIfNeededTrace (atLimit : Bool) : List LockEvent :=
  [LockEvent.acquire, LockEvent.prune]
    ++ (if atLimit then [LockEvent.sleep] else [])
    ++ [LockEvent.append, LockEvent.release]

/-- Whether some `sleep` action of the trace occurs while the lock is
held, tracking the acquisition depth. -/
def sleepsWhileHeld : ℕ → List LockEvent → Bool
  | _, [] => false
  | d, LockEvent.acquire :: es => sleepsWhileHeld (d + 1) es
  | d, LockEvent.release :: es => sleepsWhileHeld (d - 1) es
  | d, LockEvent.sleep :: es => decide (0 < d) || sleepsWhileHeld d es
  | d, _ :: es => sleepsWhileHeld d es

/-- Whether every bookkeeping action (`prune`, `append`) of the trace
occurs while the lock is held. -/
def bookkeepingHeld : ℕ → List LockEvent → Bool
  | _, [] => true
  | d, LockEvent.acquire :: es => bookkeepingHeld (d + 1) es
  | d, LockEvent.release :: es => bookkeepingHeld (d - 1) es
  | d, LockEvent.prune :: es => decide (0 < d) && bookkeepingHeld d es
  | d, LockEvent.append :: es => decide (0 < d) && bookkeepingHeld d es
  | d, _ :: es => bookkeepingHeld d es

/-! ## Multi-tier cache (stock_service.py lines 60–82, 207–242)

A tier (`self.cache[cache_type]`) is a Python dict from string keys to
entries `\x7b'data': ..., 'timestamp': ...\x7d`; we model a dict as an
association list whose update replaces the value of an existing key. -/

/-- One cached entry: lines 226–229. -/
structure CacheEntry (α : Type) where
  data : α
  timestamp : ℚ
deriving DecidableEq

/-- Generic association-list lookup (Python `d[k]` / `k in d`). -/
def alookup {β : Type} : List (String × β) → String → Option β
  | [], _ => none
  | (k, v) :: rest, key => if k = key then some v else alookup rest key

/-- Generic association-list update (Python `d[k] = v`): replace the
value of an existing key, otherwise append. -/
def ainsert {β : Type} : List (String × β) → String → β → List (String × β)
  | [], key, v => [(key, v)]
  | (k, v') :: rest, key, v =>
      if k = key then (k, v) :: rest else (k, v') :: ainsert rest key v

/-- One cache tier. -/
abbrev Tier (α : Type) : Type := List (String × CacheEntry α)

/-- Lookup in a tier. -/
def tierLookup {α : Type} (t : Tier α) (key : String) : Option (CacheEntry α) :=
  alookup t key

/-- Update in a tier. -/
def tierInsert {α : Type} (t : Tier α) (key : String) (e : CacheEntry α) : Tier α :=
  ainsert t key e

/-- A tier arising from a Python dict has pairwise-distinct keys. -/
def NodupKeys {β : Type} (l : List (String × β)) : Prop :=
  (l.map Prod.fst).Nodup

/-- Exceptions are modelled by their message. -/
abbrev Err : Type := String

/-- Observable outcome of `_get_cached_or_execute` on one tier: the
returned value or the propagated exception, the tier after the call, and
whether `fetch_func` was invoked. -/
structure ExecResult (α : Type) where
  result : Except Err α
  tier : Tier α
  fetchInvoked : Bool

/-- `StockService._get_cached_or_execute` (lines 207–242): return the
cached value if the entry is fresh (`now - timestamp < ttl`, line 216);
otherwise invoke `fetch_func` (line 222), store and return its result on
success (lines 225–231), fall back to the (expired) cached value if one
exists (lines 236–239), and propagate the exception otherwise
(line 242).  `fetch` is the outcome `fetch_func()` would produce at this
call. -/
def getCachedOrExecute {α : Type} (tier : Tier α) (key : String)
    (fetch : Except Err α) (ttl now : ℚ) : ExecResult α :=
  match tierLookup tier key with
  | some en =>
      if now - en.timestamp < ttl then
        ⟨Except.ok en.data, tier, false⟩
      else
        match fetch with
        | Except.ok r => ⟨Except.ok r, tierInsert tier key ⟨r, now⟩, true⟩
        | Except.error _ => ⟨Except.ok en.data, tier, true⟩
  | none =>
      match fetch with
      | Except.ok r => ⟨Except.ok r, tierInsert tier key ⟨r, now⟩, true⟩
      | Except.error e => ⟨Except.error e, tier, true⟩

/-- Tier TTLs in seconds (lines 64–67). -/
def REALTIME_TTL : ℚ := 30

/-- Historical-data TTL (line 65). -/
def HISTORICAL_TTL : ℚ := 3600

/-- Search TTL (line 66). -/
def SEARCH_TTL : ℚ := 3600

/-- Market TTL (line 67). -/
def MARKET_TTL : ℚ := 60

/-! ## Python `random`, `hash` and rounding -/

/-- State of Python's `random` module: the seed last installed by
`random.seed` and the number of draws made since. -/
structure RandomState where
  seed : ℕ
  pos : ℕ
deriving DecidableEq

/-- The process's pseudo-random generator, as deterministic functions of
the seed, the draw position, and the call arguments.  `random.seed(s)`
followed by the same sequence of draws always yields the same values;
nothing else is assumed about the generator. -/
structure PyGen where
  uniform : ℕ → ℕ → ℚ → ℚ → ℚ
  randint : ℕ → ℕ → ℤ → ℤ → ℤ

/-- `random.seed(n)`: install seed `n` and reset the draw position. -/
def pySeed (n : ℕ) : RandomState :=
  ⟨n, 0⟩

/-- `random.uniform(lo, hi)` under generator `g`. -/
def rUniform (g : PyGen) (st : RandomState) (lo hi : ℚ) : ℚ × RandomState :=
  (g.uniform st.seed st.pos lo hi, ⟨st.seed, st.pos + 1⟩)

/-- `random.randint(lo, hi)` under generator `g`. -/
def rRandint (g : PyGen) (st : RandomState) (lo hi : ℤ) : ℤ × RandomState :=
  (g.randint st.seed st.pos lo hi, ⟨st.seed, st.pos + 1⟩)

/-- Python `round(q, d)`, modelled as rounding half up at `d` decimal
places; the claims never depend on the tie-breaking rule, only on
`pyRound` being a fixed function of its argument. -/
def pyRound (d : ℕ) (q : ℚ) : ℚ :=
  (⌊q * 10 ^ d + 1/2⌋ : ℤ) / 10 ^ d

/-! ## Stock details and the synthetic fallback
(stock_service.py lines 324–447) -/

/-- Shape of the dict returned by `get_stock_details` and by
`_get_mock_stock_details` (lines 392–411 and 428–447).  `openPrice`
stands for the Python key `"open"`. -/
structure StockDetails where
  symbol : String
  name : String
  price : ℚ
  change : ℚ
  percentChange : ℚ
  marketCap : ℚ
  volume : ℚ
  avgVolume : ℚ
  pe : ℚ
  eps : ℚ
  dividend : ℚ
  high52w : ℚ
  low52w : ℚ
  openPrice : ℚ
  previousClose : ℚ
  timestamp : String
  dataSource : String
  analystBuy : ℤ
  analystHold : ℤ
  analystSell : ℤ
deriving DecidableEq

/-- `StockService._get_mock_stock_details` (lines 419–447): reseed the
`random` module from `hash(symbol) % 10000` (discarding the incoming
random state `st0`), derive `base_price = 50 + hash(symbol) % 100`, and
build the payload with the draws in source order.  `hashFn` is the
process's string hash, `nowStr` the formatted `datetime.now()`
(line 444).  Returns the payload and the final random state. -/
def mockStockDetails (hashFn : String → ℤ) (g : PyGen) (nowStr : String)
    (symbol : String) (st0 : RandomState) : StockDetails × RandomState :=
  let _ := st0
  let st := pySeed ((hashFn symbol).emod 10000).toNat
  let basePrice : ℚ := 50 + (((hashFn symbol).emod 100 : ℤ) : ℚ)
  let (u0, st) := rUniform g st (-5) 5
  let (u1, st) := rUniform g st (-2) 2
  let (u2, st) := rUniform g st (-2) 2
  let (u3, st) := rUniform g st 10 500
  let (u4, st) := rUniform g st 1 10
  let (u5, st) := rUniform g st 1 10
  let (u6, st) := rUniform g st 10 30
  let (u7, st) := rUniform g st 1 10
  let (u8, st) := rUniform g st 0 3
  let (u9, st) := rUniform g st (-2) 2
  let (u10, st) := rUniform g st (-1) 1
  let (i0, st) := rRandint g st 0 10
  let (i1, st) := rRandint g st 0 5
  let (i2, st) := rRandint g st 0 3
  (⟨symbol, symbol ++ " Corporation",
    pyRound 2 (basePrice + u0), pyRound 2 u1, pyRound 2 u2,
    pyRound 2 (u3 / 100), pyRound 1 u4, pyRound 1 u5,
    pyRound 1 u6, pyRound 2 u7, pyRound 2 u8,
    pyRound 2 (basePrice * (6/5)), pyRound 2 (basePrice * (4/5)),
    pyRound 2 (basePrice - u9), pyRound 2 (basePrice - u10),
    nowStr, "mock", i0, i1, i2⟩, st)

/-- The tagging performed by the `fetch_data` closure of
`get_stock_details` (lines 392–411): the assembled payload carries
`dataSource = "yfinance"` (line 409).  `upstream` is the outcome of the
upstream assembly (ticker, info, history) abstracted as a whole. -/
def fetchTagged (upstream : Except Err StockDetails) : Except Err StockDetails :=
  Except.map (fun d => { d with dataSource := "yfinance" }) upstream

/-- Observable outcome of one `get_stock_details` call. -/
structure DetailsOutcome where
  value : StockDetails
  tier : Tier StockDetails
  rand : RandomState

/-- `StockService.get_stock_details` (lines 324–417): uppercase the
symbol (line 328), key `details_SYMBOL` (line 329), read through the
`realtime` tier with `fetch_data` (line 414) and, if that ultimately
raises, return the synthetic payload (lines 415–417).  `upstreamOf`
gives the outcome the upstream assembly would produce for an
(uppercased) symbol at this call. -/
def getStockDetails (hashFn : String → ℤ) (g : PyGen)
    (upstreamOf : String → Except Err StockDetails)
    (tier : Tier StockDetails) (symbol : String) (now : ℚ) (nowStr : String)
    (st : RandomState) : DetailsOutcome :=
  let sym := symbol.toUpper
  let key := "details_" ++ sym
  let r := getCachedOrExecute tier key (fetchTagged (upstreamOf sym)) REALTIME_TTL now
  match r.result with
  | Except.ok v => ⟨v, r.tier, st⟩
  | Except.error _ =>
      let m := mockStockDetails hashFn g nowStr sym st
      ⟨m.1, r.tier, m.2⟩

/-! ## Historical data (stock_service.py lines 449–583) -/

/-- Shape of the dict returned by `get_historical_data` and
`_get_mock_historical_data` (lines 508–517 and 574–583); `data` holds
`None` for NaN prices on the live path (line 512). -/
structure HistoricalData where
  symbol : String
  timeframe : String
  labels : List String
  data : List (Option ℚ)
  timestampsList : List String
  updated_at : String
  updated_by : String
  dataSource : String
deriving DecidableEq

/-- Timeframe parameters of `_get_mock_historical_data`
(lines 529–553): days spanned and number of points. -/
def mockTimeframeParams (timeframe : String) : ℕ × ℕ :=
  if timeframe = "1d" then (1, 24)
  else if timeframe = "1w" then (7, 7)
  else if timeframe = "1m" then (30, 30)
  else if timeframe = "3m" then (90, 12)
  else if timeframe = "1y" then (365, 52)
  else (1825, 60)

/-- The price walk of lines 567–572: start from `p`; for each return `r`
append `last * (1 + r + trend)`. -/
def buildPrices (p trend : ℚ) : List ℚ → List ℚ
  | [] => [p]
  | r :: rs => p :: buildPrices (p * (1 + r + trend)) trend rs

/-- `StockService._get_mock_historical_data` (lines 525–583).
Environment parameters: `hashFn` is the process string hash, `normals i`
the `i`-th standard draw of `np.random.normal` at this call (NumPy's
global generator is unaffected by `random.seed`; `normal(0, v)` is `v`
times a standard draw), `labelFn`/`stampFn` the formatted `i`-th
timestamp of `pd.date_range` under the timeframe's format and under
`"%Y-%m-%d"`, and `nowStr` the formatted `datetime.now()`. -/
def mockHistoricalData (hashFn : String → ℤ) (normals : ℕ → ℚ)
    (labelFn stampFn : ℕ → String) (nowStr : String)
    (symbol timeframe : String) : HistoricalData :=
  let points := (mockTimeframeParams timeframe).2
  let startPrice : ℚ := 50 + (((hashFn symbol).emod 200 : ℤ) : ℚ)
  let volatility : ℚ := 1/50 + (((hashFn symbol).emod 10 : ℤ) : ℚ) / 100
  let trend : ℚ := (((hashFn symbol).emod 5 - 2 : ℤ) : ℚ) / 1000
  let rets := (List.range points).map (fun i => volatility * normals i)
  let prices := buildPrices startPrice trend (rets.drop 1)
  ⟨symbol, timeframe,
    (List.range points).map labelFn,
    prices.map (fun p => some (pyRound 2 p)),
    (List.range points).map stampFn,
    nowStr, "mock_data", "mock"⟩

/-- `StockService.get_historical_data` (lines 449–523): uppercase the
symbol, key `historical_SYMBOL_timeframe` (line 454), read through the
`historical` tier with `fetch_data` — whose assembled payload carries
`dataSource = "yfinance"` (line 516) — and fall back to the synthetic
series if that ultimately raises (lines 521–523). -/
def getHistoricalData (hashFn : String → ℤ) (normals : ℕ → ℚ)
    (labelFn stampFn : ℕ → String)
    (upstream : Except Err HistoricalData) (tier : Tier HistoricalData)
    (symbol timeframe : String) (now : ℚ) (nowStr : String) :
    HistoricalData × Tier HistoricalData :=
  let sym := symbol.toUpper
  let key := "historical_" ++ sym ++ "_" ++ timeframe
  let tagged := Except.map (fun d => { d with dataSource := "yfinance" }) upstream
  let r := getCachedOrExecute tier key tagged HISTORICAL_TTL now
  match r.result with
  | Except.ok v => (v, r.tier)
  | Except.error _ => (mockHistoricalData hashFn normals labelFn stampFn nowStr sym timeframe, r.tier)

/-! ## Market-level operations (stock_service.py lines 585–856)

For the market aggregates only the envelope structure matters to the
claims: each `fetch_data` assembles a payload and tags it
`dataSource = "yfinance"` (lines 670, 774), each `_get_mock_*` is a
fixed payload tagged `"mock"` (lines 712, 802), and `get_most_watched`
propagates the first stock's tag or uses `"unknown"` (line 834). -/

/-- A returned market dict, reduced to its payload and tag. -/
structure MarketEnvelope (π : Type) where
  payload : π
  dataSource : String

/-- Common shape of `get_market_summary` (lines 585–677) and
`get_market_movers` (lines 715–781): read through the `market` tier
under `key`; the fetch tags its payload `"yfinance"`; on an ultimately
failing read with no fallback return the mock payload tagged
`"mock"`. -/
def getMarketOp {π : Type} (upstream : Except Err π)
    (tier : Tier (MarketEnvelope π)) (key : String) (mockPayload : π)
    (now : ℚ) : MarketEnvelope π × Tier (MarketEnvelope π) :=
  let tagged := Except.map (fun p => MarketEnvelope.mk p "yfinance") upstream
  let r := getCachedOrExecute tier key tagged MARKET_TTL now
  match r.result with
  | Except.ok v => (v, r.tier)
  | Except.error _ => (⟨mockPayload, "mock"⟩, r.tier)

/-- The tag computed by `get_most_watched`'s `fetch_data` (line 834):
the first gathered stock's tag, or `"unknown"` when none was
gathered. -/
def mostWatchedSource (watched : List StockDetails) : String :=
  match watched with
  | [] => "unknown"
  | w :: _ => w.dataSource

/-- `StockService.get_most_watched` (lines 805–841): its `fetch_data`
assembles the gathered stocks (each a `get_stock_details` result, passed
in as `watched`) into an envelope tagged by `mostWatchedSource`; the
fetch itself cannot raise, and the outer guard falls back to the mock
envelope tagged `"mock"` (lines 843–856). -/
def getMostWatched (watched : List StockDetails)
    (tier : Tier (MarketEnvelope (List StockDetails))) (limit : ℕ) (now : ℚ) :
    MarketEnvelope (List StockDetails) × Tier (MarketEnvelope (List StockDetails)) :=
  let key := "watched_" ++ toString (min limit 5)
  let fetch : Except Err (MarketEnvelope (List StockDetails)) :=
    Except.ok ⟨watched, mostWatchedSource watched⟩
  let r := getCachedOrExecute tier key fetch MARKET_TTL now
  match r.result with
  | Except.ok v => (v, r.tier)
  | Except.error _ => (⟨[], "mock"⟩, r.tier)

/-! ## Batch processing (stock_service.py lines 283–322) -/

/-- Phase 1 of `get_batch_stock_details` (lines 292–297): under one
clock reading, record the fresh `realtime` entries of key
`details_SYMBOL` (the symbol is not uppercased here) into the results
dict. -/
def batchCacheHits (tier : Tier StockDetails) (now : ℚ) :
    List String → List (String × StockDetails) → List (String × StockDetails)
  | [], acc => acc
  | s :: rest, acc =>
      match tierLookup tier ("details_" ++ s) with
      | some en =>
          if now - en.timestamp < REALTIME_TTL then
            batchCacheHits tier now rest (ainsert acc s en.data)
          else
            batchCacheHits tier now rest acc
      | none => batchCacheHits tier now rest acc

/-- Phase 2 of `get_batch_stock_details` (lines 302–320): the uncached
symbols are processed one by one in source order (the chunking of
lines 304–320 only inserts pacing sleeps between them), each through
`get_stock_details` with the clock reading of its own call, its result
recorded under the original symbol; a failed resolution receives the
synthetic payload (lines 314–316, subsumed by `get_stock_details`'s own
fallback).  `i` indexes the per-call clock streams. -/
def batchFetch (hashFn : String → ℤ) (g : PyGen)
    (upstreamOf : String → Except Err StockDetails)
    (clock : ℕ → ℚ) (clockStr : ℕ → String) :
    List String → List (String × StockDetails) → Tier StockDetails →
      RandomState → ℕ →
      List (String × StockDetails) × Tier StockDetails × RandomState
  | [], acc, tier, st, _ => (acc, tier, st)
  | s :: rest, acc, tier, st, i =>
      let o := getStockDetails hashFn g upstreamOf tier s (clock i) (clockStr i) st
      batchFetch hashFn g upstreamOf clock clockStr rest
        (ainsert acc s o.value) o.tier o.rand (i + 1)

/-- `StockService.get_batch_stock_details` (lines 283–322): empty input
returns the empty dict (lines 285–286); otherwise collect the fresh
cache hits, then fetch the symbols not yet resolved
(`symbols_to_fetch`, line 300) one by one. -/
def getBatchStockDetails (hashFn : String → ℤ) (g : PyGen)
    (upstreamOf : String → Except Err StockDetails)
    (clock : ℕ → ℚ) (clockStr : ℕ → String)
    (tier : Tier StockDetails) (symbols : List String) (st : RandomState) :
    List (String × StockDetails) × Tier StockDetails × RandomState :=
  if symbols.isEmpty then ([], tier, st)
  else
    let hits := batchCacheHits tier (clock 0) symbols []
    let toFetch := symbols.filter (fun s => (alookup hits s).isNone)
    batchFetch hashFn g upstreamOf clock clockStr toFetch hits tier st 1

/-! ## Search (stock_service.py lines 244–281) -/

/-- One search result entry. -/
structure SearchItem where
  symbol : String
  name : String
deriving DecidableEq

/-- The built-in popular-stocks list (lines 99–110). -/
def popularStocks : List SearchItem :=
  [⟨"AAPL", "Apple Inc."⟩, ⟨"MSFT", "Microsoft Corporation"⟩,
   ⟨"GOOGL", "Alphabet Inc."⟩, ⟨"AMZN", "Amazon.com Inc."⟩,
   ⟨"META", "Meta Platforms Inc."⟩, ⟨"TSLA", "Tesla Inc."⟩,
   ⟨"NVDA", "NVIDIA Corporation"⟩, ⟨"JPM", "JPMorgan Chase & Co."⟩,
   ⟨"V", "Visa Inc."⟩, ⟨"JNJ", "Johnson & Johnson"⟩]

/-- `StockService.search_stocks` (lines 244–281): a falsy (empty) query
returns the first `limit` popular stocks directly (lines 247–249);
otherwise the query goes through the `search` tier under key
`search_QUERY_LIMIT` with the search fetch (abstracted as `fetch`).
Returns the outcome, the tier after the call, and whether any fetch was
invoked. -/
def searchStocks (tier : Tier (List SearchItem)) (query : String) (limit : ℕ)
    (fetch : Except Err (List SearchItem)) (now : ℚ) :
    Except Err (List SearchItem) × Tier (List SearchItem) × Bool :=
  if query = "" then
    (Except.ok (popularStocks.take limit), tier, false)
  else
    let key := "search_" ++ query ++ "_" ++ toString limit
    let r := getCachedOrExecute tier key fetch SEARCH_TTL now
    (r.result, r.tier, r.fetchInvoked)

/-! ## Cache sweepers (stock_service.py lines 139–162 and
cache_cleanup.py lines 45–71) -/

/-- Python `del d[key]` on an association list with distinct keys. -/
def tierDelete {α : Type} (t : Tier α) (key : String) : Tier α :=
  t.filter (fun kv => !(decide (kv.1 = key)))

/-- The keys collected for deletion by one tier's pass: those whose age
exceeds `ttl` (lines 151–154 resp. cache_cleanup.py lines 52–55). -/
def expiredKeys {α : Type} (now ttl : ℚ) (t : Tier α) : List String :=
  (t.filter (fun kv => decide (now - kv.2.timestamp > ttl))).map Prod.fst

/-- One tier's scan-and-delete pass: collect the expired keys, then
delete each (lines 151–158). -/
def cleanupTier {α : Type} (now ttl : ℚ) (t : Tier α) : Tier α :=
  (expiredKeys now ttl t).foldl tierDelete t

/-- What a scan-and-delete pass with threshold `ttl` leaves of a key's
entry: deleted exactly when its age exceeds `ttl`. -/
def surviving {α : Type} (now ttl : ℚ) (o : Option (CacheEntry α)) :
    Option (CacheEntry α) :=
  match o with
  | some en => if now - en.timestamp > ttl then none else some en
  | none => none

/-- The four tiers of `self.cache` (lines 74–79), with the value shapes
they hold left abstract. -/
structure ServiceCache (α β γ δ : Type) where
  realtime : Tier α
  historical : Tier β
  search : Tier γ
  market : Tier δ

/-- `StockService._cleanup_cache` (lines 139–162), run every 5 minutes by
`_cleanup_task`: every tier is scanned, deleting entries with
`now - timestamp > ttl` — the bare tier TTL, with no grace buffer. -/
def cleanupCache {α β γ δ : Type} (now : ℚ) (c : ServiceCache α β γ δ) :
    ServiceCache α β γ δ :=
  ⟨cleanupTier now REALTIME_TTL c.realtime,
   cleanupTier now HISTORICAL_TTL c.historical,
   cleanupTier now SEARCH_TTL c.search,
   cleanupTier now MARKET_TTL c.market⟩

/-- `CacheCleanupService._perform_cleanup` (cache_cleanup.py
lines 45–71): only the `realtime` and `historical` tiers are scanned,
deleting entries with `now - timestamp > ttl + 60` (a 60-second grace
buffer); the `search` and `market` tiers are not touched. -/
def performCleanup {α β γ δ : Type} (now : ℚ) (c : ServiceCache α β γ δ) :
    ServiceCache α β γ δ :=
  ⟨cleanupTier now (REALTIME_TTL + 60) c.realtime,
   cleanupTier now (HISTORICAL_TTL + 60) c.historical,
   c.search, c.market⟩

/-- A sample live payload, used to instantiate concrete runs. -/
def sampleDetails : StockDetails :=
  ⟨"AAPL", "Apple Inc.", 1, 0, 0, 0, 0, 0, 0, 0, 0, 0, 0, 0, 0,
   "2025-01-01 00:00:00", "yfinance", 0, 0, 0⟩

/-! ## Association-list lemmas -/

theorem alookup_ainsert_self {β : Type} (l : List (String × β)) (k : String) (v : β) :
    alookup (ainsert l k v) k = some v := by
  induction l with
  | nil => simp [ainsert, alookup]
  | cons hd tl ih =>
      by_cases h : hd.1 = k
      · simp [ainsert, alookup, h]
      · simp [ainsert, alookup, h, ih]

theorem alookup_ainsert_ne {β : Type} (l : List (String × β)) (k k' : String) (v : β)
    (h : k' ≠ k) : alookup (ainsert l k v) k' = alookup l k' := by
  induction l with
  | nil => simp [ainsert, alookup, Ne.symm h]
  | cons hd tl ih =>
      by_cases hk : hd.1 = k
      · subst hk
        simp [ainsert, alookup, Ne.symm h]
      · by_cases hk' : hd.1 = k'
        · simp [ainsert, alookup, hk, hk', h]
        · simp [ainsert, alookup, hk, hk', ih]

theorem alookup_isSome_iff {β : Type} (l : List (String × β)) (k : String) :
    (alookup l k).isSome ↔ k ∈ l.map Prod.fst := by
  induction l with
  | nil => simp [alookup]
  | cons hd tl ih =>
      by_cases h : hd.1 = k
      · simp [alookup, h]
      · simp [alookup, h, ih, Ne.symm h]

theorem alookup_eq_some_mem {β : Type} {l : List (String × β)} {k : String} {v : β}
    (h : alookup l k = some v) : (k, v) ∈ l := by
  induction l with
  | nil => simp [alookup] at h
  | cons hd tl ih =>
      obtain ⟨a, b⟩ := hd
      by_cases hk : a = k
      · subst hk
        simp [alookup] at h
        subst h
        exact List.mem_cons_self _ _
      · simp [alookup, hk] at h
        exact List.mem_cons_of_mem _ (ih h)

theorem alookup_of_mem_nodup {β : Type} {l : List (String × β)} {k : String} {v : β}
    (hn : NodupKeys l) (h : (k, v) ∈ l) : alookup l k = some v := by
  induction l with
  | nil => simp at h
  | cons hd tl ih =>
      obtain ⟨a, b⟩ := hd
      unfold NodupKeys at hn
      rw [List.map_cons, List.nodup_cons] at hn
      rcases List.mem_cons.mp h with h | h
      · injection h with h1 h2
        subst h1
        subst h2
        simp [alookup]
      · have hak : a ≠ k := by
          intro he
          exact hn.1 (by rw [he]; exact List.mem_map.mpr ⟨(k, v), h, rfl⟩)
        simp [alookup, hak, ih hn.2 h]

theorem ainsert_keys_mem {β : Type} (l : List (String × β)) (k k' : String) (v : β) :
    k' ∈ (ainsert l k v).map Prod.fst ↔ k' = k ∨ k' ∈ l.map Prod.fst := by
  induction l with
  | nil => simp [ainsert]
  | cons hd tl ih =>
      by_cases hk : hd.1 = k
      · subst hk
        simp [ainsert]
      · simp [ainsert, hk, ih]
        tauto

theorem ainsert_nodupkeys {β : Type} (l : List (String × β)) (k : String) (v : β)
    (hn : NodupKeys l) : NodupKeys (ainsert l k v) := by
  induction l with
  | nil => simp [ainsert, NodupKeys]
  | cons hd tl ih =>
      obtain ⟨a, b⟩ := hd
      unfold NodupKeys at hn ⊢
      rw [List.map_cons, List.nodup_cons] at hn
      by_cases hk : a = k
      · subst hk
        have he : ainsert ((a, b) :: tl) a v = (a, v) :: tl := by simp [ainsert]
        rw [he, List.map_cons, List.nodup_cons]
        exact ⟨hn.1, hn.2⟩
      · simp only [ainsert, if_neg hk]
        rw [List.map_cons, List.nodup_cons]
        refine ⟨fun hmem => ?_, ih hn.2⟩
        rcases (ainsert_keys_mem tl k a v).mp hmem with h | h
        · exact hk h
        · exact hn.1 h

/-! ## Claim C10 — empty-query search -/

/-- C10: for every limit, `search_stocks` called with an empty (falsy)
query returns the first `limit` entries of the built-in popular-stocks
list directly, leaving the cache untouched and performing no upstream
fetch. -/
theorem searchStocks_empty_query (tier : Tier (List SearchItem)) (limit : ℕ)
    (fetch : Except Err (List SearchItem)) (now : ℚ) (query : String)
    (h : query = "") :
    searchStocks tier query limit fetch now =
      (Except.ok (popularStocks.take limit), tier, false) := by
  subst h
  simp [searchStocks]

/-- Witness for C10 at the concrete input `query = ""`, `limit = 3`. -/
theorem searchStocks_empty_query_witness :
    searchStocks [] "" 3 (Except.error "down") 0 =
      (Except.ok [⟨"AAPL", "Apple Inc."⟩, ⟨"MSFT", "Microsoft Corporation"⟩,
        ⟨"GOOGL", "Alphabet Inc."⟩], [], false) := by
  rw [searchStocks_empty_query [] 3 (Except.error "down") 0 "" rfl]
  rfl

/-! ## Claim C9 — lock discipline of `wait_if_needed` -/

/-- C9 counterexample: the claim says the mutual-exclusion lock is never
held across the blocking sleep, but in the at-limit trace of
`wait_if_needed` (lines 35–47: `time.sleep` on line 43 sits inside the
`with self.lock:` block opened on line 35) the sleep occurs at positive
lock depth. -/
theorem lock_sleep_counterexample :
    sleepsWhileHeld 0 (waitIfNeededTrace true) = true := by
  decide

/-- C9 (amended): the lock protects the insert/prune bookkeeping, and the
blocking sleep — present exactly on the at-limit path — also occurs while
the lock is held: the lock is held across the sleep. -/
theorem lock_held_through_sleep :
    ∀ atLimit : Bool, bookkeepingHeld 0 (waitIfNeededTrace atLimit) = true ∧
      sleepsWhileHeld 0 (waitIfNeededTrace atLimit) = atLimit := by
  decide

/-! ## Claim C2 — TTL read-through of `_get_cached_or_execute` -/

/-- C2: a fresh entry (`now - storedAt < ttl`) is returned without
invoking `fetch_func` and without touching the tier; when no fresh entry
exists, `fetch_func` is invoked and, on its success, its result is both
returned and stored as the new entry for the key. -/
theorem cachedOrExecute_ttl {α : Type} (tier : Tier α) (key : String)
    (fetch : Except Err α) (ttl now : ℚ) :
    (∀ en, tierLookup tier key = some en → now - en.timestamp < ttl →
      getCachedOrExecute tier key fetch ttl now = ⟨Except.ok en.data, tier, false⟩)
    ∧ ((∀ en, tierLookup tier key = some en → ttl ≤ now - en.timestamp) →
      (getCachedOrExecute tier key fetch ttl now).fetchInvoked = true
      ∧ ∀ v, fetch = Except.ok v →
          (getCachedOrExecute tier key fetch ttl now).result = Except.ok v
          ∧ tierLookup (getCachedOrExecute tier key fetch ttl now).tier key =
              some ⟨v, now⟩) := by
  constructor
  · intro en hen hfresh
    simp [getCachedOrExecute, hen, hfresh]
  · intro hstale
    cases hlook : tierLookup tier key with
    | some en =>
        have hns : ¬ now - en.timestamp < ttl := not_lt.mpr (hstale en hlook)
        cases fetch with
        | ok v =>
            refine ⟨by simp [getCachedOrExecute, hlook, hns], ?_⟩
            intro v' hv'
            injection hv' with hv'
            subst hv'
            constructor
            · simp [getCachedOrExecute, hlook, hns]
            · simp only [getCachedOrExecute, hlook, hns, if_neg, ite_false]
              exact alookup_ainsert_self tier key ⟨v, now⟩
        | error e =>
            refine ⟨by simp [getCachedOrExecute, hlook, hns], ?_⟩
            intro v' hv'
            exact absurd hv' (by simp)
    | none =>
        cases fetch with
        | ok v =>
            refine ⟨by simp [getCachedOrExecute, hlook], ?_⟩
            intro v' hv'
            injection hv' with hv'
            subst hv'
            constructor
            · simp [getCachedOrExecute, hlook]
            · simp only [getCachedOrExecute, hlook]
              exact alookup_ainsert_self tier key ⟨v, now⟩
        | error e =>
            refine ⟨by simp [getCachedOrExecute, hlook], ?_⟩
            intro v' hv'
            exact absurd hv' (by simp)

/-- Witness for C2 at concrete inputs: a fresh hit at age `10 < 30`
returns the cached `7` without fetching, and a read with no entry
invokes the fetch, returning and storing `5`. -/
theorem cachedOrExecute_ttl_witness :
    getCachedOrExecute [("k", (⟨7, 0⟩ : CacheEntry ℕ))] "k" (Except.ok 5) 30 10 =
      ⟨Except.ok 7, [("k", ⟨7, 0⟩)], false⟩
    ∧ (getCachedOrExecute ([] : Tier ℕ) "k" (Except.ok 5) 30 10).result = Except.ok 5
    ∧ tierLookup (getCachedOrExecute ([] : Tier ℕ) "k" (Except.ok 5) 30 10).tier "k" =
        some ⟨5, 10⟩ := by
  refine ⟨?_, ?_, ?_⟩
  · exact (cachedOrExecute_ttl [("k", ⟨7, 0⟩)] "k" (Except.ok 5) 30 10).1
      ⟨7, 0⟩ rfl (by norm_num)
  · exact (((cachedOrExecute_ttl ([] : Tier ℕ) "k" (Except.ok 5) 30 10).2
      (by intro en hen; simp [tierLookup, alookup] at hen)).2 5 rfl).1
  · exact (((cachedOrExecute_ttl ([] : Tier ℕ) "k" (Except.ok 5) 30 10).2
      (by intro en hen; simp [tierLookup, alookup] at hen)).2 5 rfl).2

/-! ## Claim C3 — stale fallback of `_get_cached_or_execute` -/

/-- C3 counterexample: the claim says the stale fallback is returned
tagged `dataSource = "stale"`; in fact lines 236–239 return the stored
value unchanged.  Concretely, with an expired entry whose stored payload
is tagged `"yfinance"` and a failing fetch, the call returns exactly that
payload, whose tag is not `"stale"`. -/
theorem stale_tag_counterexample :
    (getCachedOrExecute [("k", (⟨sampleDetails, 0⟩ : CacheEntry StockDetails))]
        "k" (Except.error "boom") REALTIME_TTL 100).result = Except.ok sampleDetails
    ∧ sampleDetails.dataSource = "yfinance"
    ∧ sampleDetails.dataSource ≠ "stale" := by
  refine ⟨?_, rfl, by decide⟩
  have hl : tierLookup [("k", (⟨sampleDetails, 0⟩ : CacheEntry StockDetails))] "k"
      = some ⟨sampleDetails, 0⟩ := rfl
  simp only [getCachedOrExecute, hl]
  norm_num [REALTIME_TTL]

/-- C3 (amended): when the fetch raises and no fresh entry exists, an
existing (expired) entry's value is returned unchanged — with whatever
`dataSource` it was stored with, not retagged `"stale"` — and the tier is
left untouched; when no entry exists at all, the failure is
propagated. -/
theorem cachedOrExecute_stale_fallback {α : Type} (tier : Tier α) (key : String)
    (e : Err) (ttl now : ℚ)
    (hstale : ∀ en, tierLookup tier key = some en → ttl ≤ now - en.timestamp) :
    (∀ en, tierLookup tier key = some en →
      getCachedOrExecute tier key (Except.error e) ttl now =
        ⟨Except.ok en.data, tier, true⟩)
    ∧ (tierLookup tier key = none →
      getCachedOrExecute tier key (Except.error e) ttl now =
        ⟨Except.error e, tier, true⟩) := by
  constructor
  · intro en hen
    have hns : ¬ now - en.timestamp < ttl := not_lt.mpr (hstale en hen)
    simp [getCachedOrExecute, hen, hns]
  · intro hnone
    simp [getCachedOrExecute, hnone]

/-- Witness for the amended C3 at concrete inputs: an expired entry is
served unchanged after a failing fetch, and with an empty tier the error
propagates. -/
theorem cachedOrExecute_stale_fallback_witness :
    getCachedOrExecute [("k", (⟨7, 0⟩ : CacheEntry ℕ))] "k" (Except.error "boom") 30 99 =
      ⟨Except.ok 7, [("k", ⟨7, 0⟩)], true⟩
    ∧ getCachedOrExecute ([] : Tier ℕ) "k" (Except.error "boom") 30 99 =
      ⟨Except.error "boom", [], true⟩ := by
  constructor
  · exact (cachedOrExecute_stale_fallback [("k", ⟨7, 0⟩)] "k" "boom" 30 99
      (by intro en hen; simp [tierLookup, alookup] at hen; subst hen; norm_num)).1
      ⟨7, 0⟩ rfl
  · exact (cachedOrExecute_stale_fallback ([] : Tier ℕ) "k" "boom" 30 99
      (by intro en hen; simp [tierLookup, alookup] at hen)).2 rfl

/-! ## Sweeper lemmas -/

theorem alookup_tierDelete {α : Type} (t : Tier α) (k k' : String) :
    tierLookup (tierDelete t k) k' = if k' = k then none else tierLookup t k' := by
  induction t with
  | nil => simp [tierDelete, tierLookup, alookup]
  | cons hd tl ih =>
      obtain ⟨a, b⟩ := hd
      by_cases hak : a = k
      · subst hak
        have hk'a : k' = a → (if k' = a then (none : Option (CacheEntry α)) else tierLookup tl k') = none := by
          intro h
          simp [h]
        by_cases h : k' = a
        · simp [tierDelete, tierLookup, alookup, h] at ih ⊢
          simpa [tierDelete, tierLookup] using ih
        · simp only [tierDelete, tierLookup, alookup] at ih ⊢
          simp [h, Ne.symm h] at ih ⊢
          simpa [tierDelete, tierLookup] using ih
      · by_cases h : a = k'
        · subst h
          simp [tierDelete, tierLookup, alookup, hak, Ne.symm hak]
        · simp only [tierDelete, tierLookup] at ih ⊢
          simp [alookup, hak, h, ih]

theorem alookup_foldl_tierDelete {α : Type} (ks : List String) (t : Tier α) (k : String) :
    tierLookup (ks.foldl tierDelete t) k =
      if k ∈ ks then none else tierLookup t k := by
  induction ks generalizing t with
  | nil => simp
  | cons k0 ks ih =>
      rw [List.foldl_cons, ih]
      by_cases h0 : k = k0
      · subst h0
        simp [alookup_tierDelete]
      · by_cases hks : k ∈ ks
        · simp [hks, h0]
        · simp [hks, h0, alookup_tierDelete]

theorem mem_expiredKeys {α : Type} (now ttl : ℚ) (t : Tier α) (k : String) :
    k ∈ expiredKeys now ttl t ↔ ∃ en, (k, en) ∈ t ∧ now - en.timestamp > ttl := by
  unfold expiredKeys
  constructor
  · intro h
    rcases List.mem_map.mp h with ⟨⟨k', en⟩, hmem, hfst⟩
    rcases List.mem_filter.mp hmem with ⟨hmem', hp⟩
    refine ⟨en, ?_, by simpa using hp⟩
    cases hfst
    exact hmem'
  · rintro ⟨en, hmem, hexp⟩
    exact List.mem_map.mpr ⟨(k, en), List.mem_filter.mpr ⟨hmem, by simpa using hexp⟩, rfl⟩

theorem cleanupTier_lookup {α : Type} (now ttl : ℚ) (t : Tier α) (hn : NodupKeys t)
    (k : String) :
    tierLookup (cleanupTier now ttl t) k = surviving now ttl (tierLookup t k) := by
  unfold cleanupTier
  rw [alookup_foldl_tierDelete]
  cases hl : tierLookup t k with
  | none =>
      simp only [surviving]
      split <;> rfl
  | some en =>
      by_cases hexp : now - en.timestamp > ttl
      · have hc : k ∈ expiredKeys now ttl t :=
          (mem_expiredKeys now ttl t k).mpr ⟨en, alookup_eq_some_mem hl, hexp⟩
        simp [surviving, hc, hexp]
      · have hc : k ∉ expiredKeys now ttl t := by
          intro hmem
          rcases (mem_expiredKeys now ttl t k).mp hmem with ⟨en', hmem', hexp'⟩
          have := alookup_of_mem_nodup hn hmem'
          rw [show alookup t k = tierLookup t k from rfl, hl] at this
          injection this with this
          subst this
          exact hexp hexp'
        simp [surviving, hc, hexp, hl]

/-! ## Claim C8 — sweeper passes -/

/-- C8 counterexample: the claim says the background sweeper deletes
exactly the entries older than TTL plus a 60-second grace and never
removes an entry merely for being stale.  Concretely,
`StockService._cleanup_cache` at `now = 31` deletes a realtime entry of
age `31` — stale (`31 > 30`) but well within the grace window
(`31 ≤ 90`) — and `CacheCleanupService._perform_cleanup` does not scan
the `search` tier at all, leaving an entry of age `100000`
untouched. -/
theorem sweeper_counterexample :
    tierLookup (cleanupCache 31
        (⟨[("k", (⟨7, 0⟩ : CacheEntry ℕ))], [], [], []⟩ :
          ServiceCache ℕ ℕ ℕ ℕ)).realtime "k" = none
    ∧ (31 : ℚ) - 0 > REALTIME_TTL ∧ ¬ ((31 : ℚ) - 0 > REALTIME_TTL + 60)
    ∧ tierLookup (performCleanup 100000
        (⟨[], [], [("s", (⟨7, 0⟩ : CacheEntry ℕ))], []⟩ :
          ServiceCache ℕ ℕ ℕ ℕ)).search "s" = some ⟨7, 0⟩
    ∧ (100000 : ℚ) - 0 > SEARCH_TTL + 60 := by
  refine ⟨?_, by norm_num [REALTIME_TTL], by norm_num [REALTIME_TTL], rfl,
    by norm_num [SEARCH_TTL]⟩
  have h := cleanupTier_lookup 31 REALTIME_TTL
    [("k", (⟨7, 0⟩ : CacheEntry ℕ))] (by simp [NodupKeys]) "k"
  rw [show (cleanupCache 31 (⟨[("k", (⟨7, 0⟩ : CacheEntry ℕ))], [], [], []⟩ :
      ServiceCache ℕ ℕ ℕ ℕ)).realtime =
      cleanupTier 31 REALTIME_TTL [("k", (⟨7, 0⟩ : CacheEntry ℕ))] from rfl, h]
  norm_num [tierLookup, alookup, surviving, REALTIME_TTL]

/-- C8 (amended): the two sweepers differ from the claimed design in
complementary ways.  `StockService._cleanup_cache` scans every tier but
deletes exactly the entries whose age exceeds the bare tier TTL — no
grace buffer, so stale entries inside a would-be grace window are
removed.  `CacheCleanupService._perform_cleanup` deletes exactly the
entries whose age exceeds TTL + 60, but scans only the `realtime` and
`historical` tiers, leaving `search` and `market` untouched. -/
theorem sweeper_characterisation {α β γ δ : Type} (now : ℚ)
    (c : ServiceCache α β γ δ) (h1 : NodupKeys c.realtime)
    (h2 : NodupKeys c.historical) (h3 : NodupKeys c.search)
    (h4 : NodupKeys c.market) :
    (∀ k, tierLookup (cleanupCache now c).realtime k =
        surviving now REALTIME_TTL (tierLookup c.realtime k))
    ∧ (∀ k, tierLookup (cleanupCache now c).historical k =
        surviving now HISTORICAL_TTL (tierLookup c.historical k))
    ∧ (∀ k, tierLookup (cleanupCache now c).search k =
        surviving now SEARCH_TTL (tierLookup c.search k))
    ∧ (∀ k, tierLookup (cleanupCache now c).market k =
        surviving now MARKET_TTL (tierLookup c.market k))
    ∧ (∀ k, tierLookup (performCleanup now c).realtime k =
        surviving now (REALTIME_TTL + 60) (tierLookup c.realtime k))
    ∧ (∀ k, tierLookup (performCleanup now c).historical k =
        surviving now (HISTORICAL_TTL + 60) (tierLookup c.historical k))
    ∧ (performCleanup now c).search = c.search
    ∧ (performCleanup now c).market = c.market := by
  refine ⟨fun k => ?_, fun k => ?_, fun k => ?_, fun k => ?_,
    fun k => ?_, fun k => ?_, rfl, rfl⟩
  · exact cleanupTier_lookup now REALTIME_TTL c.realtime h1 k
  · exact cleanupTier_lookup now HISTORICAL_TTL c.historical h2 k
  · exact cleanupTier_lookup now SEARCH_TTL c.search h3 k
  · exact cleanupTier_lookup now MARKET_TTL c.market h4 k
  · exact cleanupTier_lookup now (REALTIME_TTL + 60) c.realtime h1 k
  · exact cleanupTier_lookup now (HISTORICAL_TTL + 60) c.historical h2 k

/-- Witness for the amended C8 at a concrete cache: an entry of age 31
in the realtime tier is removed by `_cleanup_cache` but kept by
`_perform_cleanup`. -/
theorem sweeper_characterisation_witness :
    tierLookup (cleanupCache 31
        (⟨[("k", (⟨9, 0⟩ : CacheEntry ℕ))], [], [], []⟩ :
          ServiceCache ℕ ℕ ℕ ℕ)).realtime "k" = none
    ∧ tierLookup (performCleanup 31
        (⟨[("k", (⟨9, 0⟩ : CacheEntry ℕ))], [], [], []⟩ :
          ServiceCache ℕ ℕ ℕ ℕ)).realtime "k" = some ⟨9, 0⟩ := by
  have h := sweeper_characterisation 31
    (⟨[("k", (⟨9, 0⟩ : CacheEntry ℕ))], [], [], []⟩ : ServiceCache ℕ ℕ ℕ ℕ)
    (by simp [NodupKeys]) (by simp [NodupKeys]) (by simp [NodupKeys])
    (by simp [NodupKeys])
  constructor
  · rw [h.1 "k"]
    norm_num [tierLookup, alookup, surviving, REALTIME_TTL]
  · rw [(h.2.2.2.2.1) "k"]
    norm_num [tierLookup, alookup, surviving, REALTIME_TTL]

/-! ## Claim C7 — determinism of the synthetic generator -/

/-- C7 counterexample: the claim says two successive invocations of
`_get_mock_stock_details(symbol)` return identical payloads; but the
payload embeds `datetime.now()` formatted to seconds (line 444), so two
invocations whose clock readings format differently return different
payloads.  Concrete instance: same symbol, same generator, clock strings
one second apart. -/
theorem mock_identical_counterexample :
    (mockStockDetails (fun _ => 0) ⟨fun _ _ lo _ => lo, fun _ _ lo _ => lo⟩
        "2025-01-01 00:00:00" "X" ⟨0, 0⟩).1 ≠
      (mockStockDetails (fun _ => 0) ⟨fun _ _ lo _ => lo, fun _ _ lo _ => lo⟩
        "2025-01-01 00:00:01" "X" ⟨0, 0⟩).1 :=
  fun h => absurd (congrArg StockDetails.timestamp h) (by decide)

/-- C7 (amended): within one process the synthetic payload for a symbol
is a function of the symbol and the clock reading only — it is
independent of the incoming `random`-module state because the generator
is reseeded from `hash(symbol) % 10000` on every call — and two
invocations agree on every field except `timestamp`; payloads for two
distinct symbols always differ (their `symbol` fields differ). -/
theorem mock_determinism (hashFn : String → ℤ) (g : PyGen) (t1 t2 : String)
    (s s1 s2 : String) (st st' : RandomState) :
    (mockStockDetails hashFn g t1 s st).1 = (mockStockDetails hashFn g t1 s st').1
    ∧ (mockStockDetails hashFn g t1 s st).1 =
        { (mockStockDetails hashFn g t2 s st).1 with timestamp := t1 }
    ∧ (s1 ≠ s2 →
        (mockStockDetails hashFn g t1 s1 st).1 ≠ (mockStockDetails hashFn g t1 s2 st).1) :=
  ⟨rfl, rfl, fun hne h => hne (congrArg StockDetails.symbol h)⟩

/-- Witness for the amended C7 at concrete inputs: symbols `"X"` and
`"Y"` produce different payloads. -/
theorem mock_determinism_witness :
    ("X" : String) ≠ "Y"
    ∧ (mockStockDetails (fun _ => 0) ⟨fun _ _ lo _ => lo, fun _ _ lo _ => lo⟩
        "t" "X" ⟨0, 0⟩).1 ≠
      (mockStockDetails (fun _ => 0) ⟨fun _ _ lo _ => lo, fun _ _ lo _ => lo⟩
        "t" "Y" ⟨0, 0⟩).1 :=
  ⟨by decide,
   (mock_determinism (fun _ => 0) ⟨fun _ _ lo _ => lo, fun _ _ lo _ => lo⟩
      "t" "t" "X" "X" "Y" ⟨0, 0⟩ ⟨0, 0⟩).2.2 (by decide)⟩

/-! ## Claim C4 — mock fallback of the public single-key operations -/

/-- C4: for every symbol (and timeframe), when the cached-or-fetch path
fails with no cached fallback — the upstream fetch raises and the tier
holds no entry for the key — `get_stock_details` returns exactly the
synthetic payload for the uppercased symbol and `get_historical_data`
returns exactly the synthetic series; the failure is not propagated (in
the model both operations are total functions into their payload
types, mirroring the `try/except` of lines 413–417 and 519–523). -/
theorem publicOps_mock_fallback (hashFn : String → ℤ) (g : PyGen)
    (upstreamOf : String → Except Err StockDetails) (tier : Tier StockDetails)
    (symbol : String) (now : ℚ) (nowStr : String) (st : RandomState)
    (normals : ℕ → ℚ) (labelFn stampFn : ℕ → String)
    (upstreamH : Except Err HistoricalData) (tierH : Tier HistoricalData)
    (timeframe : String) (nowH : ℚ) (nowStrH : String) (e eH : Err)
    (h1 : upstreamOf symbol.toUpper = Except.error e)
    (h2 : tierLookup tier ("details_" ++ symbol.toUpper) = none)
    (h3 : upstreamH = Except.error eH)
    (h4 : tierLookup tierH ("historical_" ++ symbol.toUpper ++ "_" ++ timeframe) = none) :
    (getStockDetails hashFn g upstreamOf tier symbol now nowStr st).value =
      (mockStockDetails hashFn g nowStr symbol.toUpper st).1
    ∧ (getHistoricalData hashFn normals labelFn stampFn upstreamH tierH
        symbol timeframe nowH nowStrH).1 =
      mockHistoricalData hashFn normals labelFn stampFn nowStrH
        symbol.toUpper timeframe := by
  constructor
  · simp [getStockDetails, getCachedOrExecute, h1, h2, fetchTagged, Except.map]
  · subst h3
    simp [getHistoricalData, getCachedOrExecute, h4, Except.map]

/-- Witness for C4 at concrete inputs: empty caches and failing
upstreams for symbol `"aapl"`. -/
theorem publicOps_mock_fallback_witness :
    (getStockDetails (fun _ => 0) ⟨fun _ _ lo _ => lo, fun _ _ lo _ => lo⟩
        (fun _ => Except.error "down") [] "aapl" 0 "t" ⟨0, 0⟩).value =
      (mockStockDetails (fun _ => 0) ⟨fun _ _ lo _ => lo, fun _ _ lo _ => lo⟩
        "t" ("aapl".toUpper) ⟨0, 0⟩).1
    ∧ (getHistoricalData (fun _ => 0) (fun _ => 0) (fun _ => "l") (fun _ => "d")
        (Except.error "down") [] "aapl" "1m" 0 "t").1 =
      mockHistoricalData (fun _ => 0) (fun _ => 0) (fun _ => "l") (fun _ => "d")
        "t" ("aapl".toUpper) "1m" := by
  have h := publicOps_mock_fallback (fun _ => 0)
    ⟨fun _ _ lo _ => lo, fun _ _ lo _ => lo⟩ (fun _ => Except.error "down")
    [] "aapl" 0 "t" ⟨0, 0⟩ (fun _ => 0) (fun _ => "l") (fun _ => "d")
    (Except.error "down") [] "1m" 0 "t" "down" "down" rfl rfl rfl rfl
  exact ⟨h.1, h.2⟩

/-! ## Claim C6 — the dataSource discriminator -/

/-- Values produced on the `ok` path of `_get_cached_or_execute` come
either from the tier or from the successful fetch. -/
theorem cachedOrExecute_result_ok {α : Type} (P : α → Prop) (tier : Tier α)
    (key : String) (fetch : Except Err α) (ttl now : ℚ)
    (htier : ∀ k en, tierLookup tier k = some en → P en.data)
    (hfetch : ∀ v, fetch = Except.ok v → P v) :
    ∀ v, (getCachedOrExecute tier key fetch ttl now).result = Except.ok v → P v := by
  intro v hv
  unfold getCachedOrExecute at hv
  cases hl : tierLookup tier key with
  | some en =>
      simp only [hl] at hv
      by_cases hfresh : now - en.timestamp < ttl
      · rw [if_pos hfresh] at hv
        have hv' : Except.ok en.data = Except.ok v := hv
        injection hv' with h
        subst h
        exact htier key en hl
      · rw [if_neg hfresh] at hv
        cases hf : fetch with
        | ok r =>
            simp only [hf] at hv
            have hv' : Except.ok r = Except.ok v := hv
            injection hv' with h
            subst h
            exact hfetch r hf
        | error er =>
            simp only [hf] at hv
            have hv' : Except.ok en.data = Except.ok v := hv
            injection hv' with h
            subst h
            exact htier key en hl
  | none =>
      simp only [hl] at hv
      cases hf : fetch with
      | ok r =>
          simp only [hf] at hv
          have hv' : Except.ok r = Except.ok v := hv
          injection hv' with h
          subst h
          exact hfetch r hf
      | error er =>
          simp only [hf] at hv
          have hv' : Except.error er = Except.ok v := hv
          exact absurd hv' (by simp)

/-- C6 counterexample: the claim says every returned `dataSource` lies in
`live`, `stale`, `mock`; but a successful live fetch is tagged
`"yfinance"` (line 409), which is none of the three.  Concrete instance:
`get_stock_details` on an empty cache with a succeeding upstream. -/
theorem dataSource_counterexample :
    (getStockDetails (fun _ => 0) ⟨fun _ _ lo _ => lo, fun _ _ lo _ => lo⟩
        (fun _ => Except.ok sampleDetails) [] "AAPL" 0 "t" ⟨0, 0⟩).value.dataSource
      = "yfinance"
    ∧ "yfinance" ∉ (["live", "stale", "mock"] : List String) :=
  ⟨rfl, by decide⟩

/-- C6 (amended): every value returned by the public data operations
carries a `dataSource` field, but its value ranges over `"yfinance"`
(successful live fetches, line 409/516/670/774), `"mock"` (synthetic
fallbacks), and — for `get_most_watched` with an empty stock list —
`"unknown"` (line 834); the tags `"live"` and `"stale"` are never
produced, stale fallbacks being re-served with their stored tag.  Each
conjunct assumes the respective tier's stored tags already lie in the
stated range (the invariant the operations themselves maintain). -/
theorem dataSource_range (hashFn : String → ℤ) (g : PyGen)
    (upstreamOf : String → Except Err StockDetails) (tier : Tier StockDetails)
    (symbol : String) (now : ℚ) (nowStr : String) (st : RandomState)
    (normals : ℕ → ℚ) (labelFn stampFn : ℕ → String)
    (upstreamH : Except Err HistoricalData) (tierH : Tier HistoricalData)
    (timeframe : String) {π : Type} (upstreamM : Except Err π)
    (tierM : Tier (MarketEnvelope π)) (keyM : String) (mockPayload : π)
    (watched : List StockDetails)
    (tierW : Tier (MarketEnvelope (List StockDetails))) (limit : ℕ)
    (htier : ∀ k en, tierLookup tier k = some en →
      en.data.dataSource ∈ (["yfinance", "mock"] : List String))
    (htierH : ∀ k en, tierLookup tierH k = some en →
      en.data.dataSource ∈ (["yfinance", "mock"] : List String))
    (htierM : ∀ k en, tierLookup tierM k = some en →
      en.data.dataSource ∈ (["yfinance", "mock"] : List String))
    (htierW : ∀ k en, tierLookup tierW k = some en →
      en.data.dataSource ∈ (["yfinance", "mock", "unknown"] : List String))
    (hwatched : ∀ w ∈ watched, w.dataSource ∈ (["yfinance", "mock"] : List String)) :
    (getStockDetails hashFn g upstreamOf tier symbol now nowStr st).value.dataSource
      ∈ (["yfinance", "mock"] : List String)
    ∧ (getHistoricalData hashFn normals labelFn stampFn upstreamH tierH
        symbol timeframe now nowStr).1.dataSource
      ∈ (["yfinance", "mock"] : List String)
    ∧ (getMarketOp upstreamM tierM keyM mockPayload now).1.dataSource
      ∈ (["yfinance", "mock"] : List String)
    ∧ (getMostWatched watched tierW limit now).1.dataSource
      ∈ (["yfinance", "mock", "unknown"] : List String) := by
  refine ⟨?_, ?_, ?_, ?_⟩
  · unfold getStockDetails
    cases hres : (getCachedOrExecute tier ("details_" ++ symbol.toUpper)
        (fetchTagged (upstreamOf symbol.toUpper)) REALTIME_TTL now).result with
    | ok v =>
        simp only [hres]
        refine cachedOrExecute_result_ok
          (fun x => x.dataSource ∈ (["yfinance", "mock"] : List String))
          tier _ _ REALTIME_TTL now htier ?_ v hres
        intro w hw
        cases hu : upstreamOf symbol.toUpper with
        | ok d =>
            rw [hu] at hw
            have hw' : Except.ok { d with dataSource := "yfinance" } = Except.ok w := hw
            injection hw' with hw'
            rw [← hw']
            simp
        | error er =>
            rw [hu] at hw
            have hw' : (Except.error er : Except Err StockDetails) = Except.ok w := hw
            exact absurd hw' (by simp)
    | error er =>
        simp only [hres]
        have : (mockStockDetails hashFn g nowStr symbol.toUpper st).1.dataSource = "mock" := rfl
        simp [this]
  · unfold getHistoricalData
    cases hres : (getCachedOrExecute tierH
        ("historical_" ++ symbol.toUpper ++ "_" ++ timeframe)
        (Except.map (fun d => { d with dataSource := "yfinance" }) upstreamH)
        HISTORICAL_TTL now).result with
    | ok v =>
        simp only [hres]
        refine cachedOrExecute_result_ok
          (fun x => x.dataSource ∈ (["yfinance", "mock"] : List String))
          tierH _ _ HISTORICAL_TTL now htierH ?_ v hres
        intro w hw
        cases hu : upstreamH with
        | ok d =>
            rw [hu] at hw
            have hw' : Except.ok { d with dataSource := "yfinance" } = Except.ok w := hw
            injection hw' with hw'
            rw [← hw']
            simp
        | error er =>
            rw [hu] at hw
            have hw' : (Except.error er : Except Err HistoricalData) = Except.ok w := hw
            exact absurd hw' (by simp)
    | error er =>
        simp only [hres]
        have : (mockHistoricalData hashFn normals labelFn stampFn nowStr
            symbol.toUpper timeframe).dataSource = "mock" := rfl
        simp [this]
  · unfold getMarketOp
    cases hres : (getCachedOrExecute tierM keyM
        (Except.map (fun p => MarketEnvelope.mk p "yfinance") upstreamM)
        MARKET_TTL now).result with
    | ok v =>
        simp only [hres]
        refine cachedOrExecute_result_ok
          (fun x => x.dataSource ∈ (["yfinance", "mock"] : List String))
          tierM _ _ MARKET_TTL now htierM ?_ v hres
        intro w hw
        cases hu : upstreamM with
        | ok d =>
            rw [hu] at hw
            have hw' : Except.ok (MarketEnvelope.mk d "yfinance") = Except.ok w := hw
            injection hw' with hw'
            rw [← hw']
            simp
        | error er =>
            rw [hu] at hw
            have hw' : (Except.error er : Except Err (MarketEnvelope π)) = Except.ok w := hw
            exact absurd hw' (by simp)
    | error er =>
        simp only [hres]
        simp
  · unfold getMostWatched
    cases hres : (getCachedOrExecute tierW ("watched_" ++ toString (min limit 5))
        (Except.ok ⟨watched, mostWatchedSource watched⟩) MARKET_TTL now).result with
    | ok v =>
        simp only [hres]
        refine cachedOrExecute_result_ok
          (fun x => x.dataSource ∈ (["yfinance", "mock", "unknown"] : List String))
          tierW _ _ MARKET_TTL now htierW ?_ v hres
        intro w hw
        injection hw with hw
        rw [← hw]
        cases watched with
        | nil => simp [mostWatchedSource]
        | cons w0 ws =>
            have h0 := hwatched w0 (List.mem_cons_self w0 ws)
            show w0.dataSource ∈ (["yfinance", "mock", "unknown"] : List String)
            simp only [List.mem_cons, List.not_mem_nil, or_false] at h0 ⊢
            tauto
    | error er =>
        simp only [hres]
        simp

/-- Witness for the amended C6 at concrete inputs: empty tiers, a
failing details upstream (tag `"mock"`), a succeeding market upstream
(tag `"yfinance"`), and an empty watch list (tag `"unknown"`). -/
theorem dataSource_range_witness :
    (getStockDetails (fun _ => 0) ⟨fun _ _ lo _ => lo, fun _ _ lo _ => lo⟩
        (fun _ => Except.error "down") [] "AAPL" 0 "t" ⟨0, 0⟩).value.dataSource
      ∈ (["yfinance", "mock"] : List String)
    ∧ (getMostWatched [] [] 5 0).1.dataSource
      ∈ (["yfinance", "mock", "unknown"] : List String) := by
  have h := dataSource_range (fun _ => 0) ⟨fun _ _ lo _ => lo, fun _ _ lo _ => lo⟩
    (fun _ => Except.error "down") [] "AAPL" 0 "t" ⟨0, 0⟩
    (fun _ => 0) (fun _ => "l") (fun _ => "d") (Except.error "down") [] "1m"
    (π := Unit) (Except.ok ()) [] "market_summary" () [] [] 5
    (by intro k en hen; simp [tierLookup, alookup] at hen)
    (by intro k en hen; simp [tierLookup, alookup] at hen)
    (by intro k en hen; simp [tierLookup, alookup] at hen)
    (by intro k en hen; simp [tierLookup, alookup] at hen)
    (by intro w hw; simp at hw)
  exact ⟨h.1, h.2.2.2⟩

/-! ## Rate-limiter lemmas -/

theorem filter_cons_pos {α : Type} (p : α → Bool) (a : α) (l : List α)
    (h : p a = true) : List.filter p (a :: l) = a :: List.filter p l := by
  simp [h]

theorem filter_cons_neg {α : Type} (p : α → Bool) (a : α) (l : List α)
    (h : p a = false) : List.filter p (a :: l) = List.filter p l := by
  simp [h]

theorem length_filter_le_of_imp {p q : ℚ → Bool} (l : List ℚ)
    (h : ∀ x ∈ l, p x = true → q x = true) :
    (l.filter p).length ≤ (l.filter q).length := by
  induction l with
  | nil => simp
  | cons a l ih =>
      have ih' := ih (fun x hx hpx => h x (List.mem_cons_of_mem a hx) hpx)
      cases hp : p a with
      | true =>
          have hq := h a (List.mem_cons_self a l) hp
          rw [List.filter_cons_of_pos hp, List.filter_cons_of_pos hq,
            List.length_cons, List.length_cons]
          omega
      | false =>
          rw [List.filter_cons_of_neg (by simp [hp])]
          cases hq : q a with
          | true =>
              rw [List.filter_cons_of_pos hq, List.length_cons]
              omega
          | false =>
              rw [List.filter_cons_of_neg (by simp [hq])]
              exact ih'

theorem countWithin_le_length (t P : ℚ) (l : List ℚ) :
    countWithin t P l ≤ l.length :=
  List.length_filter_le _ l

theorem countWithin_mono_time (l : List ℚ) (t t' P : ℚ)
    (hb : ∀ x ∈ l, x ≤ t) (ht : t ≤ t') :
    countWithin t' P l ≤ countWithin t P l := by
  refine length_filter_le_of_imp l (fun x hx hpx => ?_)
  have h1 : t' - x ≤ P := of_decide_eq_true hpx
  have h2 : t - x ≤ t' - x := by linarith
  exact decide_eq_true (by linarith)

theorem countWithin_append (t P a : ℚ) (l : List ℚ) :
    countWithin t P (l ++ [a]) =
      countWithin t P l + (if t - a ≤ P then 1 else 0) := by
  unfold countWithin
  rw [List.filter_append, List.length_append]
  congr 1
  by_cases h : t - a ≤ P
  · rw [filter_cons_pos (fun x => decide (t - x ≤ P)) a [] (decide_eq_true h),
      List.filter_nil, if_pos h]
    rfl
  · rw [filter_cons_neg (fun x => decide (t - x ≤ P)) a [] (decide_eq_false h),
      List.filter_nil, if_neg h]
    rfl

theorem pruneExpired_eq_filter (now P : ℚ) (l : List ℚ)
    (hs : l.Sorted (· ≤ ·)) :
    pruneExpired now P l = l.filter (fun x => decide (now - x ≤ P)) := by
  induction l with
  | nil => rfl
  | cons a l ih =>
      rw [List.sorted_cons] at hs
      by_cases h : now - a > P
      · have hpa : (decide (now - a ≤ P)) = false :=
          decide_eq_false (not_le.mpr h)
        rw [show pruneExpired now P (a :: l) = pruneExpired now P l from by
          unfold pruneExpired
          rw [if_pos h]
          cases l <;> rfl]
        rw [filter_cons_neg (fun x => decide (now - x ≤ P)) a l hpa]
        exact ih hs.2
      · have h' : now - a ≤ P := not_lt.mp h
        have hall : l.filter (fun x => decide (now - x ≤ P)) = l :=
          List.filter_eq_self.mpr (fun b hb => decide_eq_true (by
            have := hs.1 b hb
            linarith))
        rw [show pruneExpired now P (a :: l) = a :: l from by
          unfold pruneExpired
          rw [if_neg h]]
        rw [filter_cons_pos (fun x => decide (now - x ≤ P)) a l (decide_eq_true h'),
          hall]

theorem wait_if_needed_limit (rl : RateLimiter) (e : CallEvent)
    (h : rl.max_calls ≤ (pruneExpired e.now rl.period rl.timestamps).length) :
    wait_if_needed rl e =
      ({ rl with timestamps :=
          pruneExpired e.now rl.period rl.timestamps ++ [e.wake] }, e.wake) := by
  simp [wait_if_needed, h]

theorem wait_if_needed_free (rl : RateLimiter) (e : CallEvent)
    (h : ¬ rl.max_calls ≤ (pruneExpired e.now rl.period rl.timestamps).length) :
    wait_if_needed rl e =
      ({ rl with timestamps :=
          pruneExpired e.now rl.period rl.timestamps ++ [e.now] }, e.now) := by
  simp [wait_if_needed, h]

theorem RLInv_step (rl : RateLimiter) (r : ℚ) (e : CallEvent)
    (hN : 1 ≤ rl.max_calls) (hP : 0 < rl.period)
    (hinv : RLInv rl r) (hev : ValidEvent rl r e) :
    RLInv (wait_if_needed rl e).1 (wait_if_needed rl e).2
    ∧ (wait_if_needed rl e).1.max_calls = rl.max_calls
    ∧ (wait_if_needed rl e).1.period = rl.period := by
  obtain ⟨hsort, hbound, hcount⟩ := hinv
  obtain ⟨hr_now, hj1, hj2, hwake⟩ := hev
  obtain ⟨pruned, hpruned⟩ :
      ∃ p, p = pruneExpired e.now rl.period rl.timestamps := ⟨_, rfl⟩
  rw [← hpruned] at hwake
  have hprf : pruned = rl.timestamps.filter (fun x => decide (e.now - x ≤ rl.period)) := by
    rw [hpruned]
    exact pruneExpired_eq_filter e.now rl.period rl.timestamps hsort
  have hplen : pruned.length = countWithin e.now rl.period rl.timestamps := by
    rw [hprf]
    rfl
  have hmono : countWithin e.now rl.period rl.timestamps ≤
      countWithin r rl.period rl.timestamps :=
    countWithin_mono_time rl.timestamps r e.now rl.period hbound hr_now
  have hplenN : pruned.length ≤ rl.max_calls := by
    rw [hplen]
    exact le_trans hmono hcount
  have hpsort : pruned.Sorted (· ≤ ·) := by
    rw [hprf]
    exact hsort.filter _
  have hpmem : ∀ x ∈ pruned, x ∈ rl.timestamps := by
    rw [hprf]
    intro x hx
    exact (List.mem_filter.mp hx).1
  have hpbound : ∀ x ∈ pruned, x ≤ e.now :=
    fun x hx => le_trans (hbound x (hpmem x hx)) hr_now
  by_cases hlim : rl.max_calls ≤ pruned.length
  · rw [wait_if_needed_limit rl e (by rw [← hpruned]; exact hlim)]
    rw [← hpruned]
    have hlen_eq : pruned.length = rl.max_calls := le_antisymm hplenN hlim
    have hne : pruned ≠ [] := by
      intro hnil
      rw [hnil] at hlen_eq
      simp at hlen_eq
      omega
    obtain ⟨h0, rest, hcons⟩ := List.exists_cons_of_ne_nil hne
    have hwake_now : e.now ≤ e.wake := by
      have h1 := le_max_left (0 : ℚ)
        (sleepTime pruned rl.period e.now e.jitter)
      linarith
    have hsleep : e.now + sleepTime pruned rl.period e.now e.jitter ≤ e.wake := by
      have h1 := le_max_right (0 : ℚ)
        (sleepTime pruned rl.period e.now e.jitter)
      linarith
    have hhead : pruned.headI = h0 := by
      rw [hcons]
      rfl
    have hwake_h0 : rl.period < e.wake - h0 := by
      have h1 : e.now + (h0 + rl.period - e.now + e.jitter) ≤ e.wake := by
        have := hsleep
        rw [sleepTime, hhead] at this
        linarith
      linarith
    refine ⟨⟨?_, ?_, ?_⟩, rfl, rfl⟩
    · refine List.pairwise_append.mpr ⟨hpsort, List.pairwise_singleton _ _, ?_⟩
      intro a ha b hb
      simp at hb
      subst hb
      exact le_trans (hpbound a ha) hwake_now
    · intro x hx
      rcases List.mem_append.mp hx with hx | hx
      · exact le_trans (hpbound x hx) hwake_now
      · simp at hx
        subst hx
        exact le_refl _
    · show countWithin e.wake rl.period (pruned ++ [e.wake]) ≤ rl.max_calls
      rw [countWithin_append]
      have hself : e.wake - e.wake ≤ rl.period := by linarith
      rw [if_pos hself, hcons]
      have hdrop : (decide (e.wake - h0 ≤ rl.period)) = false :=
        decide_eq_false (not_le.mpr hwake_h0)
      have hcw : countWithin e.wake rl.period (h0 :: rest) =
          countWithin e.wake rl.period rest := by
        unfold countWithin
        rw [List.filter_cons, hdrop]
        simp
      rw [hcw]
      have hr1 : countWithin e.wake rl.period rest ≤ rest.length :=
        countWithin_le_length _ _ _
      have hr2 : rest.length + 1 = rl.max_calls := by
        rw [hcons] at hlen_eq
        simpa using hlen_eq
      omega
  · rw [wait_if_needed_free rl e (by rw [← hpruned]; exact hlim)]
    rw [← hpruned]
    have hlt : pruned.length < rl.max_calls := not_le.mp hlim
    refine ⟨⟨?_, ?_, ?_⟩, rfl, rfl⟩
    · refine List.pairwise_append.mpr ⟨hpsort, List.pairwise_singleton _ _, ?_⟩
      intro a ha b hb
      simp at hb
      subst hb
      exact hpbound a ha
    · intro x hx
      rcases List.mem_append.mp hx with hx | hx
      · exact hpbound x hx
      · simp at hx
        subst hx
        exact le_refl _
    · show countWithin e.now rl.period (pruned ++ [e.now]) ≤ rl.max_calls
      rw [countWithin_append]
      have hself : e.now - e.now ≤ rl.period := by linarith
      rw [if_pos hself]
      have h1 : countWithin e.now rl.period pruned ≤ pruned.length :=
        countWithin_le_length _ _ _
      omega

theorem runCalls_inv (es : List CallEvent) : ∀ (rl : RateLimiter) (r : ℚ),
    1 ≤ rl.max_calls → 0 < rl.period → RLInv rl r → ValidTrace rl r es →
    RLInv (runCalls rl r es).1 (runCalls rl r es).2
    ∧ (runCalls rl r es).1.max_calls = rl.max_calls
    ∧ (runCalls rl r es).1.period = rl.period := by
  induction es with
  | nil =>
      intro rl r _ _ hinv _
      exact ⟨hinv, rfl, rfl⟩
  | cons e es ih =>
      intro rl r hN hP hinv hv
      obtain ⟨hev, hv'⟩ := hv
      obtain ⟨hinv', hmc, hpd⟩ := RLInv_step rl r e hN hP hinv hev
      have hrec := ih (wait_if_needed rl e).1 (wait_if_needed rl e).2
        (by rw [hmc]; exact hN) (by rw [hpd]; exact hP) hinv' hv'
      refine ⟨hrec.1, ?_, ?_⟩
      · show (runCalls (wait_if_needed rl e).1 (wait_if_needed rl e).2 es).1.max_calls
          = rl.max_calls
        rw [hrec.2.1, hmc]
      · show (runCalls (wait_if_needed rl e).1 (wait_if_needed rl e).2 es).1.period
          = rl.period
        rw [hrec.2.2, hpd]

/-! ## Claim C1 — the sliding-window invariant -/

/-- C1: for every sequence of `wait_if_needed` calls on one instance
configured with `max_calls = N ≥ 1` and `period = P > 0` — a valid trace
records, for each call, the entry clock (monotone across the sequence),
the drawn jitter in `[0.1, 1.0]`, and a post-sleep clock at least the
entry clock plus the slept duration — the number of recorded timestamps
lying within the trailing window of length `P` at the instant the last
call returns is at most `N`.  Since every prefix of a valid trace is a
valid trace, this bounds the window count at every call's return. -/
theorem rateLimiter_window_bound (N : ℕ) (P : ℚ) (es : List CallEvent)
    (hN : 1 ≤ N) (hP : 0 < P)
    (hv : ValidTrace ⟨[], N, P⟩ 0 es) :
    countWithin (runCalls ⟨[], N, P⟩ 0 es).2 P
      (runCalls ⟨[], N, P⟩ 0 es).1.timestamps ≤ N := by
  have hinv0 : RLInv ⟨[], N, P⟩ 0 := by
    refine ⟨List.sorted_nil, ?_, ?_⟩
    · intro x hx
      simp at hx
    · show countWithin 0 P [] ≤ N
      simp [countWithin]
  have h := runCalls_inv es ⟨[], N, P⟩ 0 hN hP hinv0 hv
  have hc := h.1.2.2
  rw [h.2.1, h.2.2] at hc
  exact hc

/-- Witness for C1: a concrete two-call trace with `N = 1`, `P = 1` in
which the second call hits the limit and sleeps. -/
theorem rateLimiter_window_bound_witness :
    ValidTrace ⟨[], 1, 1⟩ 0 [⟨0, 1/2, 2⟩, ⟨1/2, 1/2, 2⟩]
    ∧ countWithin (runCalls ⟨[], 1, 1⟩ 0 [⟨0, 1/2, 2⟩, ⟨1/2, 1/2, 2⟩]).2 1
        (runCalls ⟨[], 1, 1⟩ 0 [⟨0, 1/2, 2⟩, ⟨1/2, 1/2, 2⟩]).1.timestamps ≤ 1 := by
  have hvalid : ValidTrace ⟨[], 1, 1⟩ 0 [⟨0, 1/2, 2⟩, ⟨1/2, 1/2, 2⟩] := by
    refine ⟨⟨?_, ?_, ?_, ?_⟩, ⟨?_, ?_, ?_, ?_⟩, trivial⟩ <;>
      norm_num [wait_if_needed, pruneExpired, sleepTime,
        (show (default : ℚ) = 0 from rfl)]
  exact ⟨hvalid,
    rateLimiter_window_bound 1 1 [⟨0, 1/2, 2⟩, ⟨1/2, 1/2, 2⟩]
      (by norm_num) (by norm_num) hvalid⟩

/-! ## Batch-processing lemmas -/

theorem string_append_left_cancel (p x y : String) (h : p ++ x = p ++ y) : x = y := by
  have hd := congrArg String.data h
  simp only [String.data_append] at hd
  exact String.ext (List.append_cancel_left hd)

theorem cachedOrExecute_eq_some {α : Type} (tier : Tier α) (key : String)
    (fetch : Except Err α) (ttl now : ℚ) (en : CacheEntry α)
    (hl : tierLookup tier key = some en) :
    getCachedOrExecute tier key fetch ttl now =
      if now - en.timestamp < ttl then ⟨Except.ok en.data, tier, false⟩
      else match fetch with
        | Except.ok r => ⟨Except.ok r, tierInsert tier key ⟨r, now⟩, true⟩
        | Except.error _ => ⟨Except.ok en.data, tier, true⟩ := by
  unfold getCachedOrExecute
  rw [hl]

theorem cachedOrExecute_eq_none {α : Type} (tier : Tier α) (key : String)
    (fetch : Except Err α) (ttl now : ℚ)
    (hl : tierLookup tier key = none) :
    getCachedOrExecute tier key fetch ttl now =
      match fetch with
      | Except.ok r => ⟨Except.ok r, tierInsert tier key ⟨r, now⟩, true⟩
      | Except.error e => ⟨Except.error e, tier, true⟩ := by
  unfold getCachedOrExecute
  rw [hl]

theorem cachedOrExecute_tier_other {α : Type} (tier : Tier α) (key : String)
    (fetch : Except Err α) (ttl now : ℚ) (k : String) (hk : k ≠ key) :
    tierLookup (getCachedOrExecute tier key fetch ttl now).tier k =
      tierLookup tier k := by
  cases hl : tierLookup tier key with
  | some en =>
      rw [cachedOrExecute_eq_some tier key fetch ttl now en hl]
      by_cases hf : now - en.timestamp < ttl
      · rw [if_pos hf]
      · rw [if_neg hf]
        cases fetch with
        | ok r => exact alookup_ainsert_ne tier key k ⟨r, now⟩ hk
        | error e2 => rfl
  | none =>
      rw [cachedOrExecute_eq_none tier key fetch ttl now hl]
      cases fetch with
      | ok r => exact alookup_ainsert_ne tier key k ⟨r, now⟩ hk
      | error e2 => rfl

theorem cachedOrExecute_result_congr {α : Type} (tier tier' : Tier α) (key : String)
    (fetch : Except Err α) (ttl now : ℚ)
    (h : tierLookup tier key = tierLookup tier' key) :
    (getCachedOrExecute tier key fetch ttl now).result =
      (getCachedOrExecute tier' key fetch ttl now).result := by
  cases hl : tierLookup tier key with
  | some en =>
      have hl' : tierLookup tier' key = some en := by rw [← h]; exact hl
      rw [cachedOrExecute_eq_some tier key fetch ttl now en hl,
          cachedOrExecute_eq_some tier' key fetch ttl now en hl']
      by_cases hf : now - en.timestamp < ttl
      · rw [if_pos hf, if_pos hf]
      · rw [if_neg hf, if_neg hf]
        cases fetch <;> rfl
  | none =>
      have hl' : tierLookup tier' key = none := by rw [← h]; exact hl
      rw [cachedOrExecute_eq_none tier key fetch ttl now hl,
          cachedOrExecute_eq_none tier' key fetch ttl now hl']
      cases fetch <;> rfl

theorem cachedOrExecute_tier_congr {α : Type} (tier tier' : Tier α) (key : String)
    (fetch : Except Err α) (ttl now : ℚ) (k : String)
    (hk : tierLookup tier k = tierLookup tier' k)
    (hkey : tierLookup tier key = tierLookup tier' key) :
    tierLookup (getCachedOrExecute tier key fetch ttl now).tier k =
      tierLookup (getCachedOrExecute tier' key fetch ttl now).tier k := by
  by_cases h : k = key
  · subst h
    cases hl : tierLookup tier k with
    | some en =>
        have hl' : tierLookup tier' k = some en := by rw [← hkey]; exact hl
        rw [cachedOrExecute_eq_some tier k fetch ttl now en hl,
            cachedOrExecute_eq_some tier' k fetch ttl now en hl']
        by_cases hf : now - en.timestamp < ttl
        · rw [if_pos hf, if_pos hf]
          exact hkey
        · rw [if_neg hf, if_neg hf]
          cases fetch with
          | ok r =>
              have e1 := alookup_ainsert_self tier k (⟨r, now⟩ : CacheEntry α)
              have e2 := alookup_ainsert_self tier' k (⟨r, now⟩ : CacheEntry α)
              exact e1.trans e2.symm
          | error e2 => exact hkey
    | none =>
        have hl' : tierLookup tier' k = none := by rw [← hkey]; exact hl
        rw [cachedOrExecute_eq_none tier k fetch ttl now hl,
            cachedOrExecute_eq_none tier' k fetch ttl now hl']
        cases fetch with
        | ok r =>
            have e1 := alookup_ainsert_self tier k (⟨r, now⟩ : CacheEntry α)
            have e2 := alookup_ainsert_self tier' k (⟨r, now⟩ : CacheEntry α)
            exact e1.trans e2.symm
        | error e2 => exact hkey
  · rw [cachedOrExecute_tier_other tier key fetch ttl now k h,
        cachedOrExecute_tier_other tier' key fetch ttl now k h]
    exact hk

theorem getStockDetails_fail (hashFn : String → ℤ) (g : PyGen)
    (f : String → Except Err StockDetails) (tier : Tier StockDetails)
    (symbol : String) (now : ℚ) (nowStr : String) (st : RandomState) (e : Err)
    (h1 : f symbol.toUpper = Except.error e)
    (h2 : tierLookup tier ("details_" ++ symbol.toUpper) = none) :
    (getStockDetails hashFn g f tier symbol now nowStr st).value =
      (mockStockDetails hashFn g nowStr symbol.toUpper st).1
    ∧ (getStockDetails hashFn g f tier symbol now nowStr st).tier = tier := by
  have hfe : fetchTagged (f symbol.toUpper) = Except.error e := by
    rw [h1]
    rfl
  simp only [getStockDetails]
  rw [cachedOrExecute_eq_none tier ("details_" ++ symbol.toUpper)
      (fetchTagged (f symbol.toUpper)) REALTIME_TTL now h2, hfe]
  exact ⟨rfl, rfl⟩

theorem getStockDetails_tier_other (hashFn : String → ℤ) (g : PyGen)
    (f : String → Except Err StockDetails) (tier : Tier StockDetails)
    (symbol : String) (now : ℚ) (nowStr : String) (st : RandomState) (k : String)
    (hk : k ≠ "details_" ++ symbol.toUpper) :
    tierLookup (getStockDetails hashFn g f tier symbol now nowStr st).tier k =
      tierLookup tier k := by
  simp only [getStockDetails]
  cases hres : (getCachedOrExecute tier ("details_" ++ symbol.toUpper)
      (fetchTagged (f symbol.toUpper)) REALTIME_TTL now).result with
  | ok v =>
      show tierLookup (getCachedOrExecute tier ("details_" ++ symbol.toUpper)
        (fetchTagged (f symbol.toUpper)) REALTIME_TTL now).tier k = tierLookup tier k
      exact cachedOrExecute_tier_other tier _ _ REALTIME_TTL now k hk
  | error er =>
      show tierLookup (getCachedOrExecute tier ("details_" ++ symbol.toUpper)
        (fetchTagged (f symbol.toUpper)) REALTIME_TTL now).tier k = tierLookup tier k
      exact cachedOrExecute_tier_other tier _ _ REALTIME_TTL now k hk

theorem getStockDetails_value_congr (hashFn : String → ℤ) (g : PyGen)
    (f f' : String → Except Err StockDetails) (tier tier' : Tier StockDetails)
    (symbol : String) (now : ℚ) (nowStr : String) (st st' : RandomState)
    (hf : f symbol.toUpper = f' symbol.toUpper)
    (ht : tierLookup tier ("details_" ++ symbol.toUpper) =
      tierLookup tier' ("details_" ++ symbol.toUpper)) :
    (getStockDetails hashFn g f tier symbol now nowStr st).value =
      (getStockDetails hashFn g f' tier' symbol now nowStr st').value := by
  simp only [getStockDetails]
  rw [hf]
  have h2 := cachedOrExecute_result_congr tier tier' ("details_" ++ symbol.toUpper)
    (fetchTagged (f' symbol.toUpper)) REALTIME_TTL now ht
  rw [h2]
  cases hres : (getCachedOrExecute tier' ("details_" ++ symbol.toUpper)
      (fetchTagged (f' symbol.toUpper)) REALTIME_TTL now).result <;> rfl

theorem getStockDetails_tier_congr (hashFn : String → ℤ) (g : PyGen)
    (f f' : String → Except Err StockDetails) (tier tier' : Tier StockDetails)
    (symbol : String) (now : ℚ) (nowStr : String) (st st' : RandomState) (k : String)
    (hf : f symbol.toUpper = f' symbol.toUpper)
    (hk : tierLookup tier k = tierLookup tier' k)
    (ht : tierLookup tier ("details_" ++ symbol.toUpper) =
      tierLookup tier' ("details_" ++ symbol.toUpper)) :
    tierLookup (getStockDetails hashFn g f tier symbol now nowStr st).tier k =
      tierLookup (getStockDetails hashFn g f' tier' symbol now nowStr st').tier k := by
  simp only [getStockDetails]
  rw [hf]
  have hcongr := cachedOrExecute_tier_congr tier tier' ("details_" ++ symbol.toUpper)
    (fetchTagged (f' symbol.toUpper)) REALTIME_TTL now k hk ht
  cases hres : (getCachedOrExecute tier ("details_" ++ symbol.toUpper)
      (fetchTagged (f' symbol.toUpper)) REALTIME_TTL now).result with
  | ok v =>
      have h2 := cachedOrExecute_result_congr tier tier' ("details_" ++ symbol.toUpper)
        (fetchTagged (f' symbol.toUpper)) REALTIME_TTL now ht
      rw [hres] at h2
      rw [← h2]
      exact hcongr
  | error er =>
      have h2 := cachedOrExecute_result_congr tier tier' ("details_" ++ symbol.toUpper)
        (fetchTagged (f' symbol.toUpper)) REALTIME_TTL now ht
      rw [hres] at h2
      rw [← h2]
      exact hcongr

theorem alookup_ainsert_isSome {β : Type} (l : List (String × β)) (k s : String)
    (v : β) (h : (alookup l s).isSome) : (alookup (ainsert l k v) s).isSome := by
  by_cases hs : s = k
  · subst hs
    rw [alookup_ainsert_self]
    rfl
  · rw [alookup_ainsert_ne l k s v hs]
    exact h

theorem batchCacheHits_isSome_of (tier : Tier StockDetails) (now : ℚ) :
    ∀ (syms : List String) (acc : List (String × StockDetails)) (s : String),
      (alookup acc s).isSome →
      (alookup (batchCacheHits tier now syms acc) s).isSome := by
  intro syms
  induction syms with
  | nil =>
      intro acc s h
      exact h
  | cons s0 rest ih =>
      intro acc s h
      unfold batchCacheHits
      split
      · split
        · exact ih _ s (alookup_ainsert_isSome acc s0 s _ h)
        · exact ih _ s h
      · exact ih _ s h

theorem batchCacheHits_isSome_mem (tier : Tier StockDetails) (now : ℚ) :
    ∀ (syms : List String) (acc : List (String × StockDetails)) (s : String),
      (alookup (batchCacheHits tier now syms acc) s).isSome →
      (alookup acc s).isSome ∨ s ∈ syms := by
  intro syms
  induction syms with
  | nil =>
      intro acc s h
      exact Or.inl h
  | cons s0 rest ih =>
      intro acc s h
      unfold batchCacheHits at h
      split at h
      · split at h
        · rcases ih _ s h with h' | h'
          · by_cases hs : s = s0
            · exact Or.inr (by rw [hs]; exact List.mem_cons_self s0 rest)
            · rw [alookup_ainsert_ne acc s0 s _ hs] at h'
              exact Or.inl h'
          · exact Or.inr (List.mem_cons_of_mem _ h')
        · rcases ih _ s h with h' | h'
          · exact Or.inl h'
          · exact Or.inr (List.mem_cons_of_mem _ h')
      · rcases ih _ s h with h' | h'
        · exact Or.inl h'
        · exact Or.inr (List.mem_cons_of_mem _ h')

theorem batchCacheHits_nodup (tier : Tier StockDetails) (now : ℚ) :
    ∀ (syms : List String) (acc : List (String × StockDetails)),
      NodupKeys acc → NodupKeys (batchCacheHits tier now syms acc) := by
  intro syms
  induction syms with
  | nil =>
      intro acc h
      exact h
  | cons s0 rest ih =>
      intro acc h
      unfold batchCacheHits
      split
      · split
        · exact ih _ (ainsert_nodupkeys acc s0 _ h)
        · exact ih _ h
      · exact ih _ h

theorem batchCacheHits_lookup_none (tier : Tier StockDetails) (now : ℚ) :
    ∀ (syms : List String) (acc : List (String × StockDetails)) (b : String),
      tierLookup tier ("details_" ++ b) = none → alookup acc b = none →
      alookup (batchCacheHits tier now syms acc) b = none := by
  intro syms
  induction syms with
  | nil =>
      intro acc b _ hacc
      exact hacc
  | cons s0 rest ih =>
      intro acc b htb hacc
      unfold batchCacheHits
      split
      · rename_i en heq
        split
        · refine ih _ b htb ?_
          have hs : s0 ≠ b := by
            intro hsb
            rw [hsb, htb] at heq
            exact absurd heq (by simp)
          rw [alookup_ainsert_ne acc s0 b _ (Ne.symm hs)]
          exact hacc
        · exact ih _ b htb hacc
      · exact ih _ b htb hacc

theorem batchFetch_cons (hashFn : String → ℤ) (g : PyGen)
    (f : String → Except Err StockDetails) (clock : ℕ → ℚ) (clockStr : ℕ → String)
    (s : String) (rest : List String) (acc : List (String × StockDetails))
    (tier : Tier StockDetails) (st : RandomState) (i : ℕ) :
    batchFetch hashFn g f clock clockStr (s :: rest) acc tier st i =
      batchFetch hashFn g f clock clockStr rest
        (ainsert acc s (getStockDetails hashFn g f tier s (clock i) (clockStr i) st).value)
        (getStockDetails hashFn g f tier s (clock i) (clockStr i) st).tier
        (getStockDetails hashFn g f tier s (clock i) (clockStr i) st).rand (i + 1) := rfl

theorem batchFetch_lookup_not_mem (hashFn : String → ℤ) (g : PyGen)
    (f : String → Except Err StockDetails) (clock : ℕ → ℚ) (clockStr : ℕ → String) :
    ∀ (L : List String) (acc : List (String × StockDetails))
      (tier : Tier StockDetails) (st : RandomState) (i : ℕ) (b : String), b ∉ L →
      alookup (batchFetch hashFn g f clock clockStr L acc tier st i).1 b =
        alookup acc b := by
  intro L
  induction L with
  | nil =>
      intro acc tier st i b _
      rfl
  | cons s rest ih =>
      intro acc tier st i b hb
      rw [batchFetch_cons]
      have hbs : b ≠ s := fun h => hb (h ▸ List.mem_cons_self s rest)
      rw [ih _ _ _ _ b (fun h => hb (List.mem_cons_of_mem s h))]
      exact alookup_ainsert_ne acc s b _ hbs

theorem batchFetch_isSome_of (hashFn : String → ℤ) (g : PyGen)
    (f : String → Except Err StockDetails) (clock : ℕ → ℚ) (clockStr : ℕ → String) :
    ∀ (L : List String) (acc : List (String × StockDetails))
      (tier : Tier StockDetails) (st : RandomState) (i : ℕ) (s : String),
      (alookup acc s).isSome →
      (alookup (batchFetch hashFn g f clock clockStr L acc tier st i).1 s).isSome := by
  intro L
  induction L with
  | nil =>
      intro acc tier st i s h
      exact h
  | cons s0 rest ih =>
      intro acc tier st i s h
      rw [batchFetch_cons]
      exact ih _ _ _ _ s (alookup_ainsert_isSome acc s0 s _ h)

theorem batchFetch_mem_isSome (hashFn : String → ℤ) (g : PyGen)
    (f : String → Except Err StockDetails) (clock : ℕ → ℚ) (clockStr : ℕ → String) :
    ∀ (L : List String) (acc : List (String × StockDetails))
      (tier : Tier StockDetails) (st : RandomState) (i : ℕ) (s : String), s ∈ L →
      (alookup (batchFetch hashFn g f clock clockStr L acc tier st i).1 s).isSome := by
  intro L
  induction L with
  | nil =>
      intro acc tier st i s h
      exact absurd h (List.not_mem_nil s)
  | cons s0 rest ih =>
      intro acc tier st i s h
      rw [batchFetch_cons]
      by_cases hs : s ∈ rest
      · exact ih _ _ _ _ s hs
      · have hss : s = s0 := by
          rcases List.mem_cons.mp h with h' | h'
          · exact h'
          · exact absurd h' hs
        subst hss
        refine batchFetch_isSome_of hashFn g f clock clockStr rest _ _ _ _ s ?_
        rw [alookup_ainsert_self]
        rfl

theorem batchFetch_isSome_mem (hashFn : String → ℤ) (g : PyGen)
    (f : String → Except Err StockDetails) (clock : ℕ → ℚ) (clockStr : ℕ → String) :
    ∀ (L : List String) (acc : List (String × StockDetails))
      (tier : Tier StockDetails) (st : RandomState) (i : ℕ) (s : String),
      (alookup (batchFetch hashFn g f clock clockStr L acc tier st i).1 s).isSome →
      (alookup acc s).isSome ∨ s ∈ L := by
  intro L
  induction L with
  | nil =>
      intro acc tier st i s h
      exact Or.inl h
  | cons s0 rest ih =>
      intro acc tier st i s h
      rw [batchFetch_cons] at h
      rcases ih _ _ _ _ s h with h' | h'
      · by_cases hs : s = s0
        · exact Or.inr (by rw [hs]; exact List.mem_cons_self s0 rest)
        · rw [alookup_ainsert_ne acc s0 s _ hs] at h'
          exact Or.inl h'
      · exact Or.inr (List.mem_cons_of_mem _ h')

theorem batchFetch_nodup (hashFn : String → ℤ) (g : PyGen)
    (f : String → Except Err StockDetails) (clock : ℕ → ℚ) (clockStr : ℕ → String) :
    ∀ (L : List String) (acc : List (String × StockDetails))
      (tier : Tier StockDetails) (st : RandomState) (i : ℕ),
      NodupKeys acc →
      NodupKeys (batchFetch hashFn g f clock clockStr L acc tier st i).1 := by
  intro L
  induction L with
  | nil =>
      intro acc tier st i h
      exact h
  | cons s0 rest ih =>
      intro acc tier st i h
      rw [batchFetch_cons]
      exact ih _ _ _ _ (ainsert_nodupkeys acc s0 _ h)

theorem batchFetch_fail (hashFn : String → ℤ) (g : PyGen)
    (f : String → Except Err StockDetails) (clock : ℕ → ℚ) (clockStr : ℕ → String)
    (b : String) (e : Err) (hfail : f b.toUpper = Except.error e) :
    ∀ (L : List String) (acc : List (String × StockDetails))
      (tier : Tier StockDetails) (st : RandomState) (i : ℕ),
      b ∈ L → L.Nodup → (∀ s ∈ L, s ≠ b → s.toUpper ≠ b.toUpper) →
      tierLookup tier ("details_" ++ b.toUpper) = none →
      ∃ (j : ℕ) (st' : RandomState),
        alookup (batchFetch hashFn g f clock clockStr L acc tier st i).1 b =
          some (mockStockDetails hashFn g (clockStr j) b.toUpper st').1 := by
  intro L
  induction L with
  | nil =>
      intro acc tier st i hmem
      exact absurd hmem (List.not_mem_nil b)
  | cons s rest ih =>
      intro acc tier st i hmem hnodup hinj htier
      rw [batchFetch_cons]
      by_cases hsb : s = b
      · subst hsb
        have hbrest : s ∉ rest := (List.nodup_cons.mp hnodup).1
        rw [batchFetch_lookup_not_mem hashFn g f clock clockStr rest _ _ _ _ s hbrest]
        rw [alookup_ainsert_self]
        refine ⟨i, st, ?_⟩
        have hv := (getStockDetails_fail hashFn g f tier s (clock i) (clockStr i) st e
          hfail htier).1
        rw [hv]
      · have hmem' : b ∈ rest := by
          rcases List.mem_cons.mp hmem with h | h
          · exact absurd h.symm hsb
          · exact h
        have hsneq : s.toUpper ≠ b.toUpper := hinj s (List.mem_cons_self s rest) hsb
        have hkeyne : "details_" ++ b.toUpper ≠ "details_" ++ s.toUpper :=
          fun hk => hsneq (string_append_left_cancel "details_" _ _ hk).symm
        have htier' : tierLookup
            (getStockDetails hashFn g f tier s (clock i) (clockStr i) st).tier
            ("details_" ++ b.toUpper) = none := by
          rw [getStockDetails_tier_other hashFn g f tier s (clock i) (clockStr i) st _
            hkeyne]
          exact htier
        exact ih _ _ _ (i + 1) hmem' (List.nodup_cons.mp hnodup).2
          (fun s' hs' => hinj s' (List.mem_cons_of_mem s hs')) htier'

theorem batchFetch_agree (hashFn : String → ℤ) (g : PyGen)
    (f f' : String → Except Err StockDetails) (clock : ℕ → ℚ) (clockStr : ℕ → String)
    (b : String) (hagree : ∀ u, u ≠ b.toUpper → f u = f' u) :
    ∀ (L : List String) (acc acc' : List (String × StockDetails))
      (tier tier' : Tier StockDetails) (st st' : RandomState) (i : ℕ),
      (∀ s, s.toUpper ≠ b.toUpper → alookup acc s = alookup acc' s) →
      (∀ k, k ≠ "details_" ++ b.toUpper → tierLookup tier k = tierLookup tier' k) →
      ∀ s, s.toUpper ≠ b.toUpper →
        alookup (batchFetch hashFn g f clock clockStr L acc tier st i).1 s =
          alookup (batchFetch hashFn g f' clock clockStr L acc' tier' st' i).1 s := by
  intro L
  induction L with
  | nil =>
      intro acc acc' tier tier' st st' i hacc _ s hs
      exact hacc s hs
  | cons s0 rest ih =>
      intro acc acc' tier tier' st st' i hacc htier s hs
      rw [batchFetch_cons, batchFetch_cons]
      by_cases h0 : s0.toUpper = b.toUpper
      · refine ih _ _ _ _ _ _ (i + 1) ?_ ?_ s hs
        · intro s1 hs1
          by_cases hss : s1 = s0
          · exact absurd (hss ▸ h0) hs1
          · rw [alookup_ainsert_ne acc s0 s1 _ hss, alookup_ainsert_ne acc' s0 s1 _ hss]
            exact hacc s1 hs1
        · intro k hk
          have hkey : k ≠ "details_" ++ s0.toUpper := by
            rw [h0]
            exact hk
          rw [getStockDetails_tier_other hashFn g f tier s0 (clock i) (clockStr i) st k
              hkey,
            getStockDetails_tier_other hashFn g f' tier' s0 (clock i) (clockStr i) st' k
              hkey]
          exact htier k hk
      · have hf0 : f s0.toUpper = f' s0.toUpper := hagree s0.toUpper h0
        have hkey0 : "details_" ++ s0.toUpper ≠ "details_" ++ b.toUpper :=
          fun hkk => h0 (string_append_left_cancel "details_" _ _ hkk)
        have ht0 : tierLookup tier ("details_" ++ s0.toUpper) =
            tierLookup tier' ("details_" ++ s0.toUpper) := htier _ hkey0
        have hveq := getStockDetails_value_congr hashFn g f f' tier tier' s0
          (clock i) (clockStr i) st st' hf0 ht0
        refine ih _ _ _ _ _ _ (i + 1) ?_ ?_ s hs
        · intro s1 hs1
          by_cases hss : s1 = s0
          · subst hss
            rw [alookup_ainsert_self, alookup_ainsert_self, hveq]
          · rw [alookup_ainsert_ne acc s0 s1 _ hss, alookup_ainsert_ne acc' s0 s1 _ hss]
            exact hacc s1 hs1
        · intro k hk
          exact getStockDetails_tier_congr hashFn g f f' tier tier' s0
            (clock i) (clockStr i) st st' k hf0 (htier k hk) ht0

theorem getBatch_eq (hashFn : String → ℤ) (g : PyGen)
    (f : String → Except Err StockDetails) (clock : ℕ → ℚ) (clockStr : ℕ → String)
    (tier : Tier StockDetails) (symbols : List String) (st : RandomState)
    (hne : symbols ≠ []) :
    getBatchStockDetails hashFn g f clock clockStr tier symbols st =
      batchFetch hashFn g f clock clockStr
        (symbols.filter (fun s =>
          (alookup (batchCacheHits tier (clock 0) symbols []) s).isNone))
        (batchCacheHits tier (clock 0) symbols []) tier st 1 := by
  unfold getBatchStockDetails
  have hempty : symbols.isEmpty = false := by
    cases symbols
    · exact absurd rfl hne
    · rfl
  rw [hempty]
  rfl

/-! ## Claim C5 — batch coverage and per-key isolation -/

/-- C5: for every non-empty list of symbols, `get_batch_stock_details`
returns a map with exactly one entry per distinct requested symbol (a
symbol has an entry iff it was requested, and the keys are pairwise
distinct) and never raises (the model is a total function); a symbol
whose resolution fails — failing upstream and no cache entry — receives
the synthetic payload for that symbol; and, for requested symbols with
pairwise-distinct uppercased forms, every other symbol's result is
unaffected by that symbol's upstream outcome (two runs whose upstreams
agree everywhere except on the failing symbol agree on every other
symbol's result). -/
theorem batch_isolation (hashFn : String → ℤ) (g : PyGen)
    (f f' : String → Except Err StockDetails) (clock : ℕ → ℚ)
    (clockStr : ℕ → String) (tier : Tier StockDetails) (symbols : List String)
    (st : RandomState) (b : String) (e : Err) (hne : symbols ≠ []) :
    ((∀ s, (alookup (getBatchStockDetails hashFn g f clock clockStr tier
        symbols st).1 s).isSome ↔ s ∈ symbols)
      ∧ NodupKeys (getBatchStockDetails hashFn g f clock clockStr tier symbols st).1)
    ∧ (b ∈ symbols → symbols.Nodup →
        (∀ s ∈ symbols, s ≠ b → s.toUpper ≠ b.toUpper) →
        f b.toUpper = Except.error e →
        tierLookup tier ("details_" ++ b) = none →
        tierLookup tier ("details_" ++ b.toUpper) = none →
        ∃ (j : ℕ) (st' : RandomState),
          alookup (getBatchStockDetails hashFn g f clock clockStr tier symbols st).1 b
            = some (mockStockDetails hashFn g (clockStr j) b.toUpper st').1)
    ∧ ((∀ u, u ≠ b.toUpper → f u = f' u) →
        (∀ s ∈ symbols, s ≠ b → s.toUpper ≠ b.toUpper) →
        ∀ s ∈ symbols, s ≠ b →
          alookup (getBatchStockDetails hashFn g f clock clockStr tier symbols st).1 s
            = alookup (getBatchStockDetails hashFn g f' clock clockStr tier
                symbols st).1 s) := by
  rw [getBatch_eq hashFn g f clock clockStr tier symbols st hne,
    getBatch_eq hashFn g f' clock clockStr tier symbols st hne]
  refine ⟨⟨?_, ?_⟩, ?_, ?_⟩
  · intro s
    constructor
    · intro h
      rcases batchFetch_isSome_mem hashFn g f clock clockStr _ _ _ _ _ s h with h' | h'
      · rcases batchCacheHits_isSome_mem tier (clock 0) symbols [] s h' with h'' | h''
        · exact absurd h'' (by simp [alookup])
        · exact h''
      · exact (List.mem_filter.mp h').1
    · intro hmem
      by_cases hh : (alookup (batchCacheHits tier (clock 0) symbols []) s).isSome
      · exact batchFetch_isSome_of hashFn g f clock clockStr _ _ _ _ _ s hh
      · refine batchFetch_mem_isSome hashFn g f clock clockStr _ _ _ _ _ s ?_
        refine List.mem_filter.mpr ⟨hmem, ?_⟩
        cases ho : alookup (batchCacheHits tier (clock 0) symbols []) s with
        | none => rfl
        | some v => exact absurd (by rw [ho]; rfl) hh
  · exact batchFetch_nodup hashFn g f clock clockStr _ _ _ _ _
      (batchCacheHits_nodup tier (clock 0) symbols [] (by simp [NodupKeys]))
  · intro hmem hnodup hinj hfail htb htbu
    have hhits : alookup (batchCacheHits tier (clock 0) symbols []) b = none :=
      batchCacheHits_lookup_none tier (clock 0) symbols [] b htb rfl
    have hbf : b ∈ symbols.filter (fun s =>
        (alookup (batchCacheHits tier (clock 0) symbols []) s).isNone) :=
      List.mem_filter.mpr ⟨hmem, by rw [hhits]; rfl⟩
    exact batchFetch_fail hashFn g f clock clockStr b e hfail _ _ tier st 1 hbf
      (hnodup.filter _)
      (fun s hs => hinj s (List.mem_filter.mp hs).1) htbu
  · intro hagree hinj s hmem hsb
    exact batchFetch_agree hashFn g f f' clock clockStr b hagree _ _ _ tier tier st st 1
      (fun s1 _ => rfl) (fun k _ => rfl) s (hinj s hmem hsb)

/-- Witness for C5 at a concrete batch: the symbol `"BAD"` on an empty
cache with a failing upstream receives the synthetic payload. -/
theorem batch_isolation_witness :
    ∃ (j : ℕ) (st' : RandomState),
      alookup (getBatchStockDetails (fun _ => 0)
          ⟨fun _ _ lo _ => lo, fun _ _ lo _ => lo⟩
          (fun _ => Except.error "down")
          (fun _ => 0) (fun _ => "t") [] ["BAD"] ⟨0, 0⟩).1 "BAD" =
        some (mockStockDetails (fun _ => 0) ⟨fun _ _ lo _ => lo, fun _ _ lo _ => lo⟩
          "t" ("BAD".toUpper) st').1 := by
  have h := (batch_isolation (fun _ => 0) ⟨fun _ _ lo _ => lo, fun _ _ lo _ => lo⟩
      (fun _ => Except.error "down") (fun _ => Except.error "down")
      (fun _ => 0) (fun _ => "t") [] ["BAD"] ⟨0, 0⟩ "BAD" "down"
      (by simp)).2.1
  exact h (by decide) (by decide) (by decide) rfl rfl rfl

end SP
